import Mathlib

/-!
# Verification of the rarlist header-decoding and indexing engine

This file shallowly embeds the core of the `rarlist` Go library: the RAR5
varint codec (`internal/parse`), the signature detector, the RAR3 and RAR5
block parsers, the legacy fallback scanner, the indexing dispatch and the
aggregation / listing layer.  Byte streams are modelled as `List Nat`
(each element a byte value), file offsets and sizes as `Nat`/`Int` with
explicit `% 2 ^ 64` wherever Go's fixed-width arithmetic can overflow.
Fallible operations return `Except`.  Buffered reading and seek-based
skipping both reduce, in this model, to advancing a cursor into the byte
list; the parsers are modelled on the seek-capable path taken for ordinary
files.
-/

namespace Rarlist

/-! ## Byte-level helpers -/

/-- Little-endian 16-bit value of two bytes (Go `binary.LittleEndian.Uint16`). -/
def le16 (b0 b1 : Nat) : Nat := b0 + 256 * b1

/-- Little-endian 32-bit value of four bytes (Go `binary.LittleEndian.Uint32`). -/
def le32 (b0 b1 b2 b3 : Nat) : Nat :=
  b0 + 256 * b1 + 65536 * b2 + 16777216 * b3

/-- Byte at index `i` of the stream, `0` past the end (reads are always
bounds-checked before use, mirroring Go's explicit length checks). -/
def byteAt (data : List Nat) (i : Nat) : Nat := data.getD i 0

/-! ## Varint codec (`internal/parse/varint.go`)

`ReadVarintFromSlice` and `ReadVarint` decode the RAR5 7-bits-per-byte
little-endian varint, capped at 10 bytes.  Go's `uint64` accumulator is
modelled by reducing each OR-ed summand modulo `2 ^ 64`. -/

inductive VarintError where
  /-- Slice decoder: `io.ErrUnexpectedEOF` (empty input). -/
  | unexpectedEOF
  /-- Slice decoder: `"varint too long or truncated"`. -/
  | tooLongOrTruncated
  /-- Stream decoder: `io.EOF` from `ReadByte` (source exhausted). -/
  | eof
  /-- Stream decoder: `"varint too long"`. -/
  | tooLong
  deriving DecidableEq, Repr

/-- Loop body of `ReadVarintFromSlice`: `b` is the remaining input,
`i` the number of bytes already consumed, `val` the accumulator. -/
def readVarintFromSliceAux : List Nat → Nat → Nat → Except VarintError (Nat × Nat)
  | [], i, _ =>
      if i = 0 then .error .unexpectedEOF else .error .tooLongOrTruncated
  | c :: rest, i, val =>
      if i ≥ 10 then .error .tooLongOrTruncated
      else
        let val' := val ||| ((c &&& 0x7F) <<< (7 * i)) % 2 ^ 64
        if c &&& 0x80 = 0 then .ok (val', i + 1)
        else readVarintFromSliceAux rest (i + 1) val'

/-- `parse.ReadVarintFromSlice`: returns the decoded value and the number of
bytes consumed. -/
def readVarintFromSlice (b : List Nat) : Except VarintError (Nat × Nat) :=
  readVarintFromSliceAux b 0 0

/-- Loop body of `parse.ReadVarint` (the stream decoder), reading from the
byte list `b`. -/
def readVarintAux : List Nat → Nat → Nat → Except VarintError (Nat × Nat)
  | [], i, _ => if i ≥ 10 then .error .tooLong else .error .eof
  | c :: rest, i, val =>
      if i ≥ 10 then .error .tooLong
      else
        let val' := val ||| ((c &&& 0x7f) <<< (7 * i)) % 2 ^ 64
        if c &&& 0x80 = 0 then .ok (val', i + 1)
        else readVarintAux rest (i + 1) val'

/-- `parse.ReadVarint` reading from the head of a byte list. -/
def readVarint (b : List Nat) : Except VarintError (Nat × Nat) :=
  readVarintAux b 0 0

/-- The varint encoder used by the test suite (`encodeVarint` in
`index_test.go`): emit 7 bits per byte, low group first, high bit set while
more groups remain. -/
def encodeVarint (x : Nat) : List Nat :=
  if h : x < 128 then [x]
  else (x % 128 + 128) :: encodeVarint (x / 128)
  decreasing_by exact Nat.div_lt_self (by omega) (by omega)

/-! ### Varint arithmetic lemmas -/

/-- OR of values with disjoint bit ranges is addition. -/
theorem lor_shiftLeft_eq_add {a k : Nat} (b : Nat) (h : a < 2 ^ k) :
    a ||| b <<< k = a + b <<< k := by
  rw [Nat.shiftLeft_eq]
  apply Nat.eq_of_testBit_eq
  intro j
  rw [Nat.testBit_lor]
  rcases lt_or_ge j k with hj | hj
  · have hbit : (b * 2 ^ k).testBit j = false := by
      rw [← Nat.shiftLeft_eq, Nat.testBit_shiftLeft]
      simp [Nat.not_le.mpr hj]
    rw [hbit, Bool.or_false]
    rw [Nat.testBit_to_div_mod, Nat.testBit_to_div_mod]
    have e : (2 : Nat) ^ k = 2 ^ j * (2 * 2 ^ (k - j - 1)) := by
      calc (2 : Nat) ^ k = 2 ^ (j + (k - j - 1 + 1)) := by congr 1; omega
        _ = 2 ^ j * 2 ^ (k - j - 1 + 1) := Nat.pow_add 2 j _
        _ = 2 ^ j * (2 * 2 ^ (k - j - 1)) := by rw [Nat.pow_succ]; ring
    have hk : b * 2 ^ k = 2 ^ j * (2 * (b * 2 ^ (k - j - 1))) := by rw [e]; ring
    rw [hk, Nat.add_mul_div_left _ _ (Nat.pos_pow_of_pos j (by omega)),
      Nat.add_mul_mod_self_left]
  · have hbita : a.testBit j = false :=
      Nat.testBit_eq_false_of_lt (lt_of_lt_of_le h (Nat.pow_le_pow_right (by omega) hj))
    rw [hbita, Bool.false_or]
    have hsplit : (2 : Nat) ^ j = 2 ^ k * 2 ^ (j - k) := by
      rw [← Nat.pow_add]; congr 1; omega
    have hdiv : (a + b * 2 ^ k) / 2 ^ j = b / 2 ^ (j - k) := by
      rw [hsplit, ← Nat.div_div_eq_div_mul,
        Nat.add_mul_div_right _ _ (Nat.pos_pow_of_pos k (by omega)),
        Nat.div_eq_of_lt h, Nat.zero_add]
    have hdiv2 : b * 2 ^ k / 2 ^ j = b / 2 ^ (j - k) := by
      rw [hsplit, ← Nat.div_div_eq_div_mul,
        Nat.mul_div_cancel _ (Nat.pos_pow_of_pos k (by omega))]
    rw [Nat.testBit_to_div_mod, Nat.testBit_to_div_mod, hdiv, hdiv2]

theorem and_two_pow_eq_zero_iff (x i : Nat) :
    x &&& 2 ^ i = 0 ↔ x.testBit i = false := by
  rw [Nat.and_two_pow]
  cases h : x.testBit i <;> simp

theorem continuation_bit_set {x : Nat} (h : x < 128) : (x + 128) &&& 0x80 ≠ 0 := by
  have hbit : (x + 128).testBit 7 = true := by
    rw [Nat.testBit_to_div_mod]
    have hd : (x + 128) / 2 ^ 7 = 1 := by
      have : (2 : Nat) ^ 7 = 128 := rfl
      omega
    rw [hd]
    rfl
  intro hc
  rw [show (0x80 : Nat) = 2 ^ 7 from rfl, and_two_pow_eq_zero_iff,
    show (2 : Nat) ^ 7 = 128 from rfl, hbit] at hc
  exact Bool.noConfusion hc

theorem continuation_bit_clear {x : Nat} (h : x < 128) : x &&& 0x80 = 0 := by
  rw [show (0x80 : Nat) = 2 ^ 7 from rfl, and_two_pow_eq_zero_iff]
  exact Nat.testBit_eq_false_of_lt h

theorem encodeVarint_length_le : ∀ L v : Nat, v < 128 ^ (L + 1) →
    (encodeVarint v).length ≤ L + 1 := by
  intro L
  induction L with
  | zero =>
      intro v hv
      rw [encodeVarint]
      have h : v < 128 := by
        have : (128 : Nat) ^ (0 + 1) = 128 := by norm_num
        omega
      rw [dif_pos h]
      simp
  | succ L ih =>
      intro v hv
      rw [encodeVarint]
      by_cases h : v < 128
      · rw [dif_pos h]
        simp only [List.length_singleton]
        omega
      · rw [dif_neg h]
        simp only [List.length_cons]
        have : v / 128 < 128 ^ (L + 1) := by
          apply Nat.div_lt_of_lt_mul
          calc v < 128 ^ (L + 2) := hv
            _ = 128 * 128 ^ (L + 1) := by ring
        have := ih _ this
        omega

/-- Core round-trip lemma for the slice decoder: decoding the encoding of `v`
from intermediate state `(i, val)` adds the shifted value of `v` and consumes
the whole encoding. -/
theorem readVarintFromSliceAux_encode : ∀ v i val : Nat,
    val < 2 ^ (7 * i) →
    i + (encodeVarint v).length ≤ 10 →
    v < 2 ^ (64 - 7 * i) →
    readVarintFromSliceAux (encodeVarint v) i val =
      .ok (val + v <<< (7 * i), i + (encodeVarint v).length) := by
  intro v
  induction v using Nat.strong_induction_on with
  | _ v ih =>
    intro i val hval hlen hv
    rw [encodeVarint] at hlen ⊢
    by_cases h : v < 128
    · rw [dif_pos h] at hlen ⊢
      simp only [List.length_singleton] at hlen ⊢
      rw [readVarintFromSliceAux]
      have hi : ¬ i ≥ 10 := by omega
      rw [if_neg hi]
      have hand : v &&& 0x7F = v := by
        rw [show (0x7F : Nat) = 2 ^ 7 - 1 from rfl,
          Nat.and_pow_two_sub_one_eq_mod]
        have : (2 : Nat) ^ 7 = 128 := rfl
        omega
      have hshift : v <<< (7 * i) < 2 ^ 64 := by
        rw [Nat.shiftLeft_eq]
        calc v * 2 ^ (7 * i) < 2 ^ (64 - 7 * i) * 2 ^ (7 * i) :=
              (Nat.mul_lt_mul_right (Nat.pos_pow_of_pos _ (by omega))).mpr hv
          _ = 2 ^ 64 := by rw [← Nat.pow_add]; congr 1; omega
      rw [hand, Nat.mod_eq_of_lt hshift, if_pos (continuation_bit_clear h),
        lor_shiftLeft_eq_add _ hval]
    · rw [dif_neg h] at hlen ⊢
      simp only [List.length_cons] at hlen ⊢
      rw [readVarintFromSliceAux]
      have hi : ¬ i ≥ 10 := by omega
      rw [if_neg hi]
      have hmod : v % 128 + 128 &&& 0x7F = v % 128 := by
        rw [show (0x7F : Nat) = 2 ^ 7 - 1 from rfl,
          Nat.and_pow_two_sub_one_eq_mod]
        have : (2 : Nat) ^ 7 = 128 := rfl
        omega
      have hcont := continuation_bit_set (Nat.mod_lt v (by omega) : v % 128 < 128)
      have hlpos : 0 < (encodeVarint (v / 128)).length := by
        rw [encodeVarint]; split <;> simp
      have hshiftle : (v % 128) <<< (7 * i) ≤ 127 * 2 ^ (7 * i) := by
        rw [Nat.shiftLeft_eq]
        exact Nat.mul_le_mul_right _ (by omega)
      have hshift64 : (v % 128) <<< (7 * i) < 2 ^ 64 := by
        calc (v % 128) <<< (7 * i) ≤ 127 * 2 ^ (7 * i) := hshiftle
          _ < 128 * 2 ^ (7 * i) := by
              have := Nat.pos_pow_of_pos (7 * i) (show 0 < 2 by omega)
              omega
          _ = 2 ^ (7 * i + 7) := by
              rw [show (128 : Nat) = 2 ^ 7 from rfl, Nat.pow_add]; ring
          _ ≤ 2 ^ 64 := Nat.pow_le_pow_right (by omega) (by omega)
      rw [hmod, Nat.mod_eq_of_lt hshift64, if_neg hcont,
        lor_shiftLeft_eq_add _ hval]
      have hval' : val + (v % 128) <<< (7 * i) < 2 ^ (7 * (i + 1)) := by
        have h1 : (128 : Nat) * 2 ^ (7 * i) = 2 ^ (7 * (i + 1)) := by
          rw [show (128 : Nat) = 2 ^ 7 from rfl, ← Nat.pow_add]; congr 1; omega
        have := hshiftle
        omega
      have hrec := ih (v / 128) (Nat.div_lt_self (by omega) (by omega)) (i + 1)
        (val + (v % 128) <<< (7 * i)) hval' (by omega)
        (by
          apply Nat.div_lt_of_lt_mul
          calc v < 2 ^ (64 - 7 * i) := hv
            _ ≤ 128 * 2 ^ (64 - 7 * (i + 1)) := by
              rw [show (128 : Nat) = 2 ^ 7 from rfl, ← Nat.pow_add]
              exact Nat.pow_le_pow_right (by omega) (by omega))
      rw [hrec]
      congr 2
      · rw [Nat.shiftLeft_eq, Nat.shiftLeft_eq, Nat.shiftLeft_eq]
        have hsplit : (2 : Nat) ^ (7 * (i + 1)) = 2 ^ (7 * i) * 128 := by
          rw [show (128 : Nat) = 2 ^ 7 from rfl, ← Nat.pow_add]; congr 1
        have hvm : v % 128 + 128 * (v / 128) = v := Nat.mod_add_div v 128
        calc val + v % 128 * 2 ^ (7 * i) + v / 128 * 2 ^ (7 * (i + 1))
            = val + (v % 128 + 128 * (v / 128)) * 2 ^ (7 * i) := by
              rw [hsplit]; ring
          _ = val + v * 2 ^ (7 * i) := by rw [hvm]
      · omega

/-- Whenever the slice decoder succeeds, the stream decoder run on the same
bytes succeeds with the same value and count (the two loops differ only in
their error reporting). -/
theorem readVarintAux_eq_of_slice_ok : ∀ b : List Nat, ∀ i val r,
    readVarintFromSliceAux b i val = .ok r → readVarintAux b i val = .ok r := by
  intro b
  induction b with
  | nil =>
      intro i val r h
      rw [readVarintFromSliceAux] at h
      split at h <;> exact Except.noConfusion h
  | cons c rest ih =>
      intro i val r h
      rw [readVarintFromSliceAux] at h
      rw [readVarintAux]
      by_cases hi : i ≥ 10
      · rw [if_pos hi] at h
        exact Except.noConfusion h
      · rw [if_neg hi] at h ⊢
        by_cases hc : c &&& 0x80 = 0
        · rw [if_pos hc] at h ⊢
          exact h
        · rw [if_neg hc] at h ⊢
          exact ih _ _ _ h

/-! ## Data model (`types.go`)

`FileBlock` carries the union of the fields used across the parser
versions in the repository (`VolumeDataSize` is the volume-local data size
used by the aggregation layer; parsers that do not set it leave Go's zero
value).  Sizes and offsets are Go `int64` values, modelled as `Int`. -/

structure FileBlock where
  /-- Decoded file name, as a list of byte values. -/
  Name : List Nat
  /-- Offset where the header starts. -/
  HeaderPos : Int
  /-- Full header size. -/
  HeaderSize : Int
  /-- Where the file's data would start within this volume. -/
  DataPos : Int
  /-- Declared packed size. -/
  PackedSize : Int
  /-- Volume-local data size (actually available bytes in this volume). -/
  VolumeDataSize : Int
  /-- Heuristic: continues in next volume. -/
  Continued : Bool
  /-- Original size, if available. -/
  UnpackedSize : Int
  /-- True if the file data is stored (no compression). -/
  Stored : Bool
  /-- True if the file data is encrypted / password protected. -/
  Encrypted : Bool
  deriving DecidableEq, Repr

/-- Archive format version strings (`version.go`). -/
inductive RarVersion where
  | unknown
  | rar3
  | rar5
  deriving DecidableEq, Repr

/-- `VolumeIndex` holds header-size accounting for one volume file. -/
structure VolumeIndex where
  Path : String
  Version : RarVersion
  /-- Bytes from the start of the file up to the first file payload. -/
  TotalHeaderBytes : Int
  FileBlocks : List FileBlock
  deriving DecidableEq, Repr

/-! ## Signature detection (`index.go` / `detectSignature`)

The detector peeks up to 1024 bytes and scans for the RAR5 signature
(8 bytes, checked first) or the RAR3 signature (7 bytes) at each offset
`i` with `i + 7 < len(buf)`. -/

/-- `rarrSigV3`: `"Rar!\x1A\x07\x00"`. -/
def rarrSigV3 : List Nat := [0x52, 0x61, 0x72, 0x21, 0x1A, 0x07, 0x00]

/-- `rarrSigV5`: `"Rar!\x1A\x07\x01\x00"`. -/
def rarrSigV5 : List Nat := [0x52, 0x61, 0x72, 0x21, 0x1A, 0x07, 0x01, 0x00]

/-- Go's `i+len(sig) <= len(buf) && string(buf[i:i+len(sig)]) == string(sig)`. -/
def sigMatchAt (buf sig : List Nat) (i : Nat) : Bool :=
  decide (i + sig.length ≤ buf.length ∧ (buf.drop i).take sig.length = sig)

/-- The scan loop of `detectSignature`, from offset `i` upward (the first
argument is fuel, always called with more fuel than `buf.length`). -/
def detectSignatureFrom (buf : List Nat) : Nat → Nat → Option (RarVersion × Nat)
  | 0, _ => none
  | fuel + 1, i =>
    if i + 7 < buf.length then
      if sigMatchAt buf rarrSigV5 i then some (.rar5, i)
      else if sigMatchAt buf rarrSigV3 i then some (.rar3, i)
      else detectSignatureFrom buf fuel (i + 1)
    else none

/-- `detectSignature` run over the peeked window (at most the first 1024
bytes of the volume); `none` models the `"RAR signature not found in first
1KB"` error. -/
def detectSignature (buf : List Nat) : Option (RarVersion × Nat) :=
  detectSignatureFrom buf (buf.length + 1) 0

/-! ## Format-B (RAR5) block parser (`rar5.go`)

`parseRar5` walks the chain of varint-framed blocks.  Reading, buffered
draining and seeking all reduce to moving the absolute position `pos`
inside the byte list.  `fileSize` is the `Stat` size of the volume file. -/

/-- Go `int64(u)` for a `uint64` value `u < 2 ^ 64`. -/
def i64ofU64 (n : Nat) : Int :=
  if n % 2 ^ 64 < 2 ^ 63 then (n % 2 ^ 64 : Nat) else (n % 2 ^ 64 : Nat) - 2 ^ 64

inductive Rar5Error where
  | discardSignature
  | readBlockCRC
  | readHeadSize
  | suspiciousHeadSize
  | readHeadData
  | blockTypeRead
  | flagsRead
  | extraAreaSizeRead
  | dataSizeRead
  | extraAreaOverflow
  | blockSpecificEndLtCur
  | fileFlagsRead
  | unpackedSizeRead
  | fileAttrRead
  | mtimeTruncated
  | crc32Truncated
  | compInfoRead
  | hostOSRead
  | nameLenRead
  | badNameLen
  /-- `bufio.Reader.Discard` with a negative count while draining the data
  region (declared data size ≥ 2^63 makes Go's `int64(dataSize)` negative). -/
  | drainBuffer
  /-- Artificial fuel exhaustion; never reached when the loop is run with
  fuel larger than the stream length. -/
  | outOfFuel
  deriving DecidableEq, Repr

/-- Optionally read one varint of the RAR5 header content at offset `cur`
of `b` (used for the flag-gated `extraAreaSize` / `dataSize` fields). -/
def readOptVar (b : List Nat) (cond : Bool) (cur : Nat) :
    Except VarintError (Nat × Nat) :=
  if cond then
    match readVarintFromSlice (b.drop cur) with
    | .error e => .error e
    | .ok (v, n) => .ok (v, cur + n)
  else .ok (0, cur)

/-- The `blockType == 2` (file header) branch of `parseRar5`: decode the
block-specific region `bs` and build the `FileBlock`. -/
def parseRar5File (bs : List Nat) (hdrStart headSizeLen headSize dataSize : Nat) :
    Except Rar5Error FileBlock :=
  match readVarintFromSlice bs with
  | .error _ => .error .fileFlagsRead
  | .ok (fileFlags, n1) =>
  match readVarintFromSlice (bs.drop n1) with
  | .error _ => .error .unpackedSizeRead
  | .ok (unpSizeVal, n2) =>
  match readVarintFromSlice (bs.drop (n1 + n2)) with
  | .error _ => .error .fileAttrRead
  | .ok (_, n3) =>
    let bcur0 := n1 + n2 + n3
    -- optional 4-byte modification time
    if fileFlags &&& 0x0002 ≠ 0 ∧ bs.length - bcur0 < 4 then .error .mtimeTruncated
    else
      let bcur1 := if fileFlags &&& 0x0002 ≠ 0 then bcur0 + 4 else bcur0
      -- optional 4-byte CRC32
      if fileFlags &&& 0x0004 ≠ 0 ∧ bs.length - bcur1 < 4 then .error .crc32Truncated
      else
        let bcur2 := if fileFlags &&& 0x0004 ≠ 0 then bcur1 + 4 else bcur1
        match readVarintFromSlice (bs.drop bcur2) with
        | .error _ => .error .compInfoRead
        | .ok (compInfo, n4) =>
        match readVarintFromSlice (bs.drop (bcur2 + n4)) with
        | .error _ => .error .hostOSRead
        | .ok (_, n5) =>
        match readVarintFromSlice (bs.drop (bcur2 + n4 + n5)) with
        | .error _ => .error .nameLenRead
        | .ok (nameLen, n6) =>
          let bcur3 := bcur2 + n4 + n5 + n6
          if nameLen = 0 ∨ nameLen > bs.length - bcur3 then .error .badNameLen
          else
            let nameBytes := (bs.drop bcur3).take nameLen
            let stored := compInfo = 0
            .ok { Name := nameBytes
                  HeaderPos := (hdrStart : Int)
                  HeaderSize := (4 + headSizeLen + headSize : Nat)
                  DataPos := ((hdrStart + 4 + headSizeLen + headSize : Nat) : Int)
                  PackedSize := i64ofU64 dataSize
                  VolumeDataSize := 0
                  Continued := false
                  UnpackedSize := i64ofU64 unpSizeVal
                  Stored := stored
                  Encrypted := false }

/-- Outcome of processing one block's header content: either the loop is
finished (`return nil` at the end-marker), or it continues at the next
position. -/
inductive Rar5Step where
  | finished (thb : Int) (blocks : List FileBlock)
  | next (pos : Nat) (blocks : List FileBlock) (thb : Int)
  deriving DecidableEq, Repr

/-- The `blockType == 2` handling of `parseRar5`: on a file block, append
the decoded `FileBlock` (setting `TotalHeaderBytes` from the first file
block); on any other block type, leave the state unchanged.
`blockSpecificEnd` already excludes the trailing extra area. -/
def rar5FileStep (headData : List Nat) (blockSpecificEnd cur2 blockType : Nat)
    (pos headSizeLen headSize dataSize : Nat) (blocks : List FileBlock)
    (thb : Int) : Except Rar5Error (List FileBlock × Int) :=
  if blockType = 2 then
    if blockSpecificEnd < cur2 then .error .blockSpecificEndLtCur
    else
      match parseRar5File ((headData.take blockSpecificEnd).drop cur2)
          pos headSizeLen headSize dataSize with
      | .error e => .error e
      | .ok fb =>
          .ok (blocks ++ [fb], if thb = 0 then fb.DataPos else thb)
  else .ok (blocks, thb)

/-- Processing of one block's decoded header content (`parseRar5` body
after `headData` has been read): block type, flags, flag-gated extra-area
and data sizes, the file-header branch, the end-marker check, and the data
skip.  `pos` is the block's `hdrStart`, `pos3` the position right after the
header. -/
def rar5ProcessHeader (headData : List Nat) (pos pos3 headSizeLen headSize : Nat)
    (blocks : List FileBlock) (thb : Int) : Except Rar5Error Rar5Step :=
  match readVarintFromSlice headData with
  | .error _ => .error .blockTypeRead
  | .ok (blockType, nbt) =>
  match readVarintFromSlice (headData.drop nbt) with
  | .error _ => .error .flagsRead
  | .ok (flags, nf) =>
  match readOptVar headData (flags &&& 0x0001 ≠ 0) (nbt + nf) with
  | .error _ => .error .extraAreaSizeRead
  | .ok (extraAreaSize, cur1) =>
  match readOptVar headData (flags &&& 0x0002 ≠ 0) cur1 with
  | .error _ => .error .dataSizeRead
  | .ok (dataSize, cur2) =>
    if extraAreaSize > 0 ∧ extraAreaSize > headSize - cur2 then
      .error .extraAreaOverflow
    else
      match rar5FileStep headData
          (if extraAreaSize > 0 then headSize - extraAreaSize else headSize)
          cur2 blockType pos headSizeLen headSize dataSize blocks thb with
      | .error e => .error e
      | .ok (blocks2, thb2) =>
        if blockType = 5 then .ok (.finished thb2 blocks2)  -- end of archive
        else if dataSize ≠ 0 ∧ dataSize ≥ 2 ^ 63 then .error .drainBuffer
        else .ok (.next (pos3 + dataSize) blocks2 thb2)

/-- The block-chain loop of `parseRar5`.  Returns the final
`(TotalHeaderBytes, FileBlocks)` pair of the volume index. -/
def rar5Loop (data : List Nat) (fileSize : Nat) :
    Nat → Nat → List FileBlock → Int → Except Rar5Error (Int × List FileBlock)
  | 0, _, _, _ => .error .outOfFuel
  | fuel + 1, pos, blocks, thb =>
    if 0 < fileSize ∧ pos ≥ fileSize then .ok (thb, blocks)
    else if pos ≥ data.length then .ok (thb, blocks)  -- `io.EOF` on the CRC read
    else if pos + 4 > data.length then .error .readBlockCRC
    else
      match readVarint (data.drop (pos + 4)) with
      | .error _ => .error .readHeadSize
      | .ok (headSize, headSizeLen) =>
        if headSize = 0 then .ok (thb, blocks)  -- tolerant end marker / padding
        else if headSize > 2 * 1024 * 1024 then .error .suspiciousHeadSize
        else if 0 < fileSize ∧ pos + 4 + headSizeLen + headSize > fileSize then
          .ok (thb, blocks)
        else if pos + 4 + headSizeLen + headSize > data.length then
          .error .readHeadData
        else
          match rar5ProcessHeader
              ((data.drop (pos + 4 + headSizeLen)).take headSize) pos
              (pos + 4 + headSizeLen + headSize) headSizeLen headSize blocks thb with
          | .error e => .error e
          | .ok (.finished thb2 blocks2) => .ok (thb2, blocks2)
          | .ok (.next pos2 blocks2 thb2) =>
              rar5Loop data fileSize fuel pos2 blocks2 thb2

/-- `parseRar5`: discard the 8-byte signature, then walk the block chain. -/
def parseRar5 (data : List Nat) (baseOffset fileSize : Nat) :
    Except Rar5Error (Int × List FileBlock) :=
  if baseOffset + 8 > data.length then .error .discardSignature
  else rar5Loop data fileSize (data.length + 1) (baseOffset + 8) [] 0

/-! ## Format-A (RAR3) block parser (`rar3.go`)

`parseRar3` walks fixed-field block headers after the 7-byte signature,
stopping after the first file block.  The model follows the seek-capable
path: draining the buffer and seeking reduce to advancing the cursor.
`pos` is the accounting position (`pos` in the Go code), `cur` the actual
read position of the buffered reader; the two can disagree on adversarial
inputs, exactly as in the source. -/

inductive Rar3Error where
  | discardSignature
  /-- `io.ReadFull` failed part-way through a block header
  (`io.ErrUnexpectedEOF`, not filtered by the `err == io.EOF` test). -/
  | readBlockHeader
  | passwordProtected
  | readFixed
  | readName
  | discardSalt
  /-- Artificial fuel exhaustion; never reached with fuel > stream length. -/
  | outOfFuel
  deriving DecidableEq, Repr

/-- Result of `readRar3BlockHeader`: `eof` is a bare `io.EOF` (zero bytes of
the requested region were available), which the caller turns into a clean
stop; a partial read is an error. -/
inductive Rar3BlockRead where
  | eof
  | errRead
  | ok (typ flags size addSize consumed : Nat)
  deriving DecidableEq, Repr

/-- `readRar3BlockHeader`: 2-byte CRC, 1-byte type, 2-byte flags, 2-byte
size, plus a 4-byte `AddSize` when flag `0x8000` is set. -/
def readRar3BlockHeader (data : List Nat) (cur : Nat) : Rar3BlockRead :=
  if cur ≥ data.length then .eof
  else if cur + 7 > data.length then .errRead
  else
    let typ := byteAt data (cur + 2)
    let flags := le16 (byteAt data (cur + 3)) (byteAt data (cur + 4))
    let size := le16 (byteAt data (cur + 5)) (byteAt data (cur + 6))
    if flags &&& 0x8000 ≠ 0 then
      if cur + 7 = data.length then .eof
      else if cur + 11 > data.length then .errRead
      else
        .ok typ flags size
          (le32 (byteAt data (cur + 7)) (byteAt data (cur + 8))
            (byteAt data (cur + 9)) (byteAt data (cur + 10))) 11
    else .ok typ flags size 0 7

/-- `parseRar3FileHeader` (`rar3.go`): read the 25-byte fixed region, the
name (length taken from offsets 15-16 of the fixed region, with the
`nameSize == 36 && method == 0x81` adjustment), and the optional salt.
Returns the block and the cursor after the consumed bytes. -/
def parseRar3FileHeader (data : List Nat) (cur : Nat) (hdrStart : Nat)
    (flags : Nat) : Except Rar3Error (FileBlock × Nat) :=
  if cur + 25 > data.length then .error .readFixed
  else
    let packSize := le32 (byteAt data (cur + 0)) (byteAt data (cur + 1))
      (byteAt data (cur + 2)) (byteAt data (cur + 3))
    let unpSize := le32 (byteAt data (cur + 4)) (byteAt data (cur + 5))
      (byteAt data (cur + 6)) (byteAt data (cur + 7))
    let method := byteAt data (cur + 18)
    -- the nameSize field is read at offset 15 of the fixed region
    let nameSize0 := le16 (byteAt data (cur + 15)) (byteAt data (cur + 16))
    -- RAR3 variant workaround for solid archives with 36-char hex names
    let nameSize := if nameSize0 = 36 ∧ method = 0x81 then 40 else nameSize0
    if cur + 25 + nameSize > data.length then .error .readName
    else
      let nameBytes := (data.drop (cur + 25)).take nameSize
      -- clean the filename: keep printable ASCII characters only
      let name := nameBytes.filter (fun b => decide (32 ≤ b ∧ b ≤ 126))
      let headerSize0 := 7 + (if flags &&& 0x8000 ≠ 0 then 4 else 0) + 25 + nameSize
      let saltPresent := flags &&& 0x0400 ≠ 0
      if saltPresent ∧ cur + 25 + nameSize + 8 > data.length then .error .discardSalt
      else
        let headerSize := if saltPresent then headerSize0 + 8 else headerSize0
        let cur' := if saltPresent then cur + 25 + nameSize + 8 else cur + 25 + nameSize
        let dataPos := hdrStart + headerSize
        let methodType := method &&& 0x0F
        let stored0 := packSize = unpSize ∨ method = 0x30 ∨ methodType = 0
        -- solid-archive heuristic: method byte 0x81 forced to stored
        let stored := if methodType = 1 ∧ method = 0x81 then true else stored0
        let encrypted := flags &&& 0x0004 ≠ 0
        .ok ({ Name := name
               HeaderPos := (hdrStart : Int)
               HeaderSize := (headerSize : Int)
               DataPos := (dataPos : Int)
               PackedSize := (packSize : Int)
               VolumeDataSize := 0
               Continued := decide (unpSize > packSize)
               UnpackedSize := (unpSize : Int)
               Stored := stored
               Encrypted := encrypted }, cur')

/-- First file block's data offset, `0` when no block was found
(`vi.TotalHeaderBytes`). -/
def headThb : List FileBlock → Int
  | [] => 0
  | fb :: _ => fb.DataPos

/-- The block loop of `parseRar3`.  Stops after the first file block. -/
def rar3Loop (data : List Nat) :
    Nat → Nat → Nat → List FileBlock → Except Rar3Error (Int × List FileBlock)
  | 0, _, _, _ => .error .outOfFuel
  | fuel + 1, pos, cur, blocks =>
    match readRar3BlockHeader data cur with
    | .eof => .ok (0, blocks)
    | .errRead => .error .readBlockHeader
    | .ok typ flags size addSize consumed =>
      let totalSize := size + (if flags &&& 0x8000 ≠ 0 then addSize else 0)
      -- encrypted headers at the main archive header (RAR 3.x)
      if typ = 0x73 ∧ (flags &&& 0x0080 ≠ 0 ∨ flags &&& 0x0200 ≠ 0) then
        .error .passwordProtected
      else if typ = 0x74 then
        match parseRar3FileHeader data (cur + consumed) pos flags with
        | .error e => .error e
        | .ok (fb, _) =>
          let blocks' := blocks ++ [fb]
          -- stop condition: only the header region until first file data
          .ok (headThb blocks', blocks')
      else
        -- skip rest of block body
        let toSkip : Int :=
          (totalSize : Int) - 7 - (if flags &&& 0x8000 ≠ 0 then 4 else 0)
        let cur' := if toSkip > 0 then cur + consumed + toSkip.toNat
          else cur + consumed
        rar3Loop data fuel (pos + totalSize) cur' blocks

/-- `parseRar3`: discard the 7-byte signature, re-align past a single pad
byte when the byte after the signature is `0x00` and the byte at offset 2 is
not a known block type, then run the block loop. -/
def parseRar3 (data : List Nat) (baseOffset : Nat) :
    Except Rar3Error (Int × List FileBlock) :=
  if baseOffset + 7 > data.length then .error .discardSignature
  else
    let c0 := baseOffset + 7
    let aligned :=
      if c0 + 3 ≤ data.length ∧
          byteAt data (c0 + 2) ≠ 0x73 ∧ byteAt data (c0 + 2) ≠ 0x74 ∧
          byteAt data c0 = 0 then c0 + 1
      else c0
    rar3Loop data (data.length + 1) aligned aligned []

/-! ## Legacy name decoding (`internal/util/DecodeRar3Unicode`)

The compact RAR3 Unicode name encoding: a flag byte selects, two bits per
character, between copying an ASCII byte, copying a literal byte, combining
a remembered high byte with a low byte, or updating the high byte. -/

/-- State of the Unicode decoder: produced runes, position in the ASCII
part, position in the encoded data, remembered high byte. -/
structure UniState where
  result : List Nat
  asciiPos : Nat
  dataPos : Nat
  highByte : Nat
  deriving Repr

/-- The extended-flag accumulation loop (`flags & 0x80` set): shift further
data bytes into `flagBits` while the next marker bit is set. -/
def uniExtFlags (uni : List Nat) : Nat → Nat → Nat → Nat × Nat × Nat
  | 0, flagBits, dataPos => (flagBits, dataPos, 8)  -- 0x80 >> 8 = 0, loop ends
  | fuelB + 1, flagBits, dataPos =>
    let bitCount := 8 - (fuelB + 1)
    if flagBits &&& (0x80 >>> bitCount) ≠ 0 ∧ dataPos < uni.length then
      uniExtFlags uni fuelB
        (((flagBits &&& ((0x80 >>> bitCount) - 1)) <<< 8) ||| byteAt uni dataPos)
        (dataPos + 1)
    else (flagBits, dataPos, bitCount)

/-- One step of the per-character loop: apply flag value `i` of `flagBits`. -/
def uniChar (ascii uni : List Nat) (flagBits i : Nat) (st : UniState) : UniState :=
  let flagValue := (flagBits >>> (i * 2)) &&& 0x03
  if flagValue = 0 then
    if st.asciiPos < ascii.length then
      { st with
        result := st.result ++ [byteAt ascii st.asciiPos]
        asciiPos := st.asciiPos + 1 }
    else st
  else if flagValue = 1 then
    if st.dataPos < uni.length then
      { st with
        result := st.result ++ [byteAt uni st.dataPos]
        dataPos := st.dataPos + 1 }
    else st
  else if flagValue = 2 then
    if st.dataPos < uni.length then
      { st with
        result := st.result ++ [(byteAt uni st.dataPos % 256) + 256 * (st.highByte % 256)]
        dataPos := st.dataPos + 1 }
    else st
  else
    if st.dataPos < uni.length then
      { st with highByte := byteAt uni st.dataPos, dataPos := st.dataPos + 1 }
    else st

/-- The inner `for i in 0..flagCount-1` loop, with its early break when both
sources are exhausted. -/
def uniInner (ascii uni : List Nat) (flagBits : Nat) :
    Nat → Nat → UniState → UniState
  | 0, _, st => st
  | n + 1, i, st =>
    if st.asciiPos ≥ ascii.length ∧ st.dataPos ≥ uni.length then st
    else uniInner ascii uni flagBits n (i + 1) (uniChar ascii uni flagBits i st)

/-- The outer loop over the encoded data. -/
def uniOuter (ascii uni : List Nat) : Nat → UniState → UniState
  | 0, st => st
  | fuel + 1, st =>
    if st.dataPos < uni.length then
      let flags := byteAt uni st.dataPos
      let st1 := { st with dataPos := st.dataPos + 1 }
      if flags &&& 0x80 ≠ 0 then
        let (flagBits, dataPos', bitCount) := uniExtFlags uni 7 flags st1.dataPos
        let flagCount := bitCount * 4
        uniOuter ascii uni fuel
          (uniInner ascii uni flagBits flagCount 0 { st1 with dataPos := dataPos' })
      else
        uniOuter ascii uni fuel (uniInner ascii uni flags 4 0 st1)
    else st

/-- `util.DecodeRar3Unicode`: returns the decoded name as a list of rune
(code point) values; any ASCII tail left over is appended verbatim. -/
def decodeRar3Unicode (ascii uni : List Nat) : List Nat :=
  if uni.length = 0 then ascii
  else
    let st := uniOuter ascii uni (uni.length + 1) ⟨[], 0, 0, 0⟩
    st.result ++ ascii.drop st.asciiPos

/-- Go's UTF-8 encoding of one rune as produced by `string([]rune)`;
surrogate and out-of-range values become U+FFFD. -/
def utf8Encode (c : Nat) : List Nat :=
  if c < 0x80 then [c]
  else if c < 0x800 then [0xC0 + c / 64, 0x80 + c % 64]
  else if 0xD800 ≤ c ∧ c < 0xE000 then [0xEF, 0xBF, 0xBD]
  else if c < 0x10000 then [0xE0 + c / 4096, 0x80 + c / 64 % 64, 0x80 + c % 64]
  else if c < 0x110000 then
    [0xF0 + c / 262144, 0x80 + c / 4096 % 64, 0x80 + c / 64 % 64, 0x80 + c % 64]
  else [0xEF, 0xBF, 0xBD]

/-- Go `string(runes)` as a byte list. -/
def runesToBytes (rs : List Nat) : List Nat := (rs.map utf8Encode).flatten

/-! ## Legacy scanner (`legacy.go` / `scanLegacy`)

A tolerant byte scan over a peeked window (64 KiB) starting right after the
signature: find a `0x74` type byte, validate the candidate block header,
extract the same fixed region as the Format-A parser, and record exactly
one `FileBlock`. -/

/-- First index `≥ start` of byte `0x74` in `buf` (Go `bytes.IndexByte` on
the sliced window), as an `Option` (first argument is fuel). -/
def indexOf74 (buf : List Nat) : Nat → Nat → Option Nat
  | 0, _ => none
  | fuel + 1, start =>
    if start < buf.length then
      if byteAt buf start = 0x74 then some start
      else indexOf74 buf fuel (start + 1)
    else none

/-- One candidate inspection of the legacy scan;
`none` means "advance `searchStart` past this `0x74` and continue",
`some r` means the scan terminates with result `r`. -/
def legacyCandidate (buf : List Nat) (baseOffset typePos : Nat) :
    Option (Except Unit (Int × FileBlock)) :=
  if typePos < 2 ∨ typePos - 2 + 7 > buf.length then none
  else
    let hdrStart := typePos - 2
    let flags := le16 (byteAt buf (hdrStart + 3)) (byteAt buf (hdrStart + 4))
    let size := le16 (byteAt buf (hdrStart + 5)) (byteAt buf (hdrStart + 6))
    if size < 32 then none
    else
      let headEnd := hdrStart + size
      if headEnd > buf.length then some (.error ())  -- incomplete: break scan
      else
        let fixedStart := hdrStart + 7
        if fixedStart + 25 > headEnd then none
        else
          let packSize32 := le32 (byteAt buf (fixedStart + 0)) (byteAt buf (fixedStart + 1))
            (byteAt buf (fixedStart + 2)) (byteAt buf (fixedStart + 3))
          let unpSize32 := le32 (byteAt buf (fixedStart + 4)) (byteAt buf (fixedStart + 5))
            (byteAt buf (fixedStart + 6)) (byteAt buf (fixedStart + 7))
          let method := byteAt buf (fixedStart + 18)
          let nameSize := le16 (byteAt buf (fixedStart + 19)) (byteAt buf (fixedStart + 20))
          let offset0 := fixedStart + 25
          let hasHigh := flags &&& 0x0100 ≠ 0
          if hasHigh ∧ offset0 + 8 > headEnd then none  -- truncated high sizes
          else
            let highPack := if hasHigh then le32 (byteAt buf (offset0 + 0))
              (byteAt buf (offset0 + 1)) (byteAt buf (offset0 + 2)) (byteAt buf (offset0 + 3))
              else 0
            let highUnp := if hasHigh then le32 (byteAt buf (offset0 + 4))
              (byteAt buf (offset0 + 5)) (byteAt buf (offset0 + 6)) (byteAt buf (offset0 + 7))
              else 0
            let offset := if hasHigh then offset0 + 8 else offset0
            if offset + nameSize > headEnd then none
            else
              let nameField := (buf.drop offset).take nameSize
              let name :=
                if flags &&& 0x0200 ≠ 0 then
                  match nameField.indexOf? 0 with
                  | some z =>
                    runesToBytes (decodeRar3Unicode (nameField.take z)
                      (nameField.drop (z + 1)))
                  | none => nameField
                else nameField
              let packSize : Int := ((highPack <<< 32 ||| packSize32 : Nat) : Int)
              let unpSize : Int := ((highUnp <<< 32 ||| unpSize32 : Nat) : Int)
              let stored := method = 0x30
              let fileHeaderPos := (baseOffset : Int) + 8 + (hdrStart : Int)
              some (.ok (fileHeaderPos + (size : Int),
                { Name := name
                  HeaderPos := fileHeaderPos
                  HeaderSize := (size : Int)
                  DataPos := fileHeaderPos + (size : Int)
                  PackedSize := packSize
                  VolumeDataSize := 0
                  Continued := false
                  UnpackedSize := unpSize
                  Stored := stored
                  Encrypted := false }))

/-- The scan loop of `scanLegacy` over the peeked window. -/
def legacyScanFrom (buf : List Nat) (baseOffset : Nat) :
    Nat → Nat → Except Unit (Int × FileBlock)
  | 0, _ => .error ()
  | fuel + 1, searchStart =>
    match indexOf74 buf (buf.length + 1) searchStart with
    | none => .error ()  -- "legacy scan: no file header found"
    | some typePos =>
      match legacyCandidate buf baseOffset typePos with
      | some r => r
      | none => legacyScanFrom buf baseOffset fuel (typePos + 1)

/-- `scanLegacy` (`legacy.go`): the caller has positioned the reader at
`baseOffset + 8`; the window is the next 64 KiB.  On success returns
`(TotalHeaderBytes, the single FileBlock)`. -/
def scanLegacy (data : List Nat) (baseOffset : Nat) :
    Except Unit (Int × FileBlock) :=
  let buf := (data.drop (baseOffset + 8)).take (64 * 1024)
  legacyScanFrom buf baseOffset (buf.length + 1) 0

/-! ## Volume indexing dispatch (`index.go` / `indexSingle`)

`indexSingle` detects the signature, dispatches to the matching parser and
applies the Format-A fallback policy: a `PasswordProtected` failure is
surfaced immediately without attempting the legacy scan; any other strict
failure, or a success with zero file blocks, triggers the legacy scan. -/

inductive IndexError where
  /-- "RAR signature not found in first 1KB". -/
  | signatureNotFound
  /-- "unsupported/unknown version". -/
  | unsupportedVersion
  /-- A `parseRar3` error surfaced after the fallback policy. -/
  | rar3 (e : Rar3Error)
  /-- "legacy scan: no file header found" surfaced when strict parsing
  succeeded with zero blocks and the legacy scan also failed. -/
  | legacyScanFailed
  /-- A `parseRar5` error. -/
  | rar5 (e : Rar5Error)
  deriving DecidableEq, Repr

/-- `indexSingle`: index one volume given its full contents.  `fileSize`
is the `Stat` size, i.e. the length of `data`. -/
def indexSingle (path : String) (data : List Nat) : Except IndexError VolumeIndex :=
  let fileSize := data.length
  match detectSignature (data.take 1024) with
  | none => .error .signatureNotFound
  | some (version, sigOffset) =>
    match version with
    | .rar3 =>
      match parseRar3 data sigOffset with
      | .error e =>
        -- password-protected: bubble up immediately, no legacy fallback
        if e = .passwordProtected then .error (.rar3 .passwordProtected)
        else
          match scanLegacy data sigOffset with
          | .ok (thb, fb) => .ok ⟨path, .rar3, thb, [fb]⟩
          | .error _ => .error (.rar3 e)
      | .ok (thb, blocks) =>
        if blocks = [] then
          match scanLegacy data sigOffset with
          | .ok (thb', fb) => .ok ⟨path, .rar3, thb', [fb]⟩
          | .error _ => .error .legacyScanFailed
        else .ok ⟨path, .rar3, thb, blocks⟩
    | .rar5 =>
      match parseRar5 data sigOffset fileSize with
      | .error e => .error (.rar5 e)
      | .ok (thb, blocks) => .ok ⟨path, .rar5, thb, blocks⟩
    | .unknown => .error .unsupportedVersion

/-! ## Aggregation and listing (`aggregate.go`)

`AggregateFiles` groups file blocks by name across volumes, in order,
skipping empty names; `ListFilesFS` first rejects any encrypted or
non-stored block, then returns the aggregation. -/

/-- Go `int64` wrap-around normalisation. -/
def wrap64 (n : Int) : Int := (n + 2 ^ 63) % 2 ^ 64 - 2 ^ 63

/-- Go `int64` addition (`ag.TotalPackedSize += fb.VolumeDataSize`). -/
def i64add (a b : Int) : Int := wrap64 (a + b)

structure AggregatedFilePart where
  Path : String
  DataOffset : Int
  PackedSize : Int
  UnpackedSize : Int
  Stored : Bool
  Encrypted : Bool
  deriving DecidableEq, Repr

structure AggregatedFile where
  Name : List Nat
  TotalPackedSize : Int
  TotalUnpackedSize : Int
  Parts : List AggregatedFilePart
  AnyEncrypted : Bool
  AllStored : Bool
  deriving DecidableEq, Repr

/-- A freshly created group (`&AggregatedFile{Name: .., AllStored: true}`). -/
def aggInit (name : List Nat) : AggregatedFile := ⟨name, 0, 0, [], false, true⟩

/-- The per-block update applied to the group of `fb.Name`. -/
def aggUpdate (path : String) (fb : FileBlock) (ag : AggregatedFile) :
    AggregatedFile :=
  { ag with
    Parts := ag.Parts ++
      [⟨path, fb.DataPos, fb.VolumeDataSize, fb.UnpackedSize, fb.Stored, fb.Encrypted⟩]
    TotalPackedSize := i64add ag.TotalPackedSize fb.VolumeDataSize
    -- only take the first reported (positive) unpacked size
    TotalUnpackedSize :=
      if ag.TotalUnpackedSize = 0 ∧ fb.UnpackedSize > 0 then fb.UnpackedSize
      else ag.TotalUnpackedSize
    AnyEncrypted := ag.AnyEncrypted || fb.Encrypted
    AllStored := ag.AllStored && fb.Stored }

/-- Apply one `(path, block)` pair to the ordered group list (the Go map
update keyed by name, with first-seen order maintained by `order`). -/
def aggInsert (acc : List AggregatedFile) (path : String) (fb : FileBlock) :
    List AggregatedFile :=
  match acc with
  | [] => [aggUpdate path fb (aggInit fb.Name)]
  | ag :: rest =>
    if ag.Name = fb.Name then aggUpdate path fb ag :: rest
    else ag :: aggInsert rest path fb

/-- All `(volume path, file block)` pairs with non-empty names, in volume
order then block order. -/
def aggPairs (vs : List VolumeIndex) : List (String × FileBlock) :=
  (vs.map (fun v =>
    (v.FileBlocks.filter (fun fb => fb.Name ≠ [])).map (fun fb => (v.Path, fb)))).flatten

def aggLoop : List (String × FileBlock) → List AggregatedFile → List AggregatedFile
  | [], acc => acc
  | (p, fb) :: rest, acc => aggLoop rest (aggInsert acc p fb)

/-- `AggregateFiles`. -/
def aggregateFiles (vs : List VolumeIndex) : List AggregatedFile :=
  aggLoop (aggPairs vs) []

/-- Sentinel failures of the listing operation. -/
inductive ListError where
  | passwordProtected
  | compressedUnsupported
  deriving DecidableEq, Repr

/-- All file blocks of the indexed volumes, in order (no name filter). -/
def allBlocks (vs : List VolumeIndex) : List FileBlock :=
  (vs.map (·.FileBlocks)).flatten

/-- The validation loop of `ListFilesFS`: reject the first encrypted or
non-stored block. -/
def validateList : List FileBlock → Except ListError Unit
  | [] => .ok ()
  | fb :: rest =>
    if fb.Encrypted then .error .passwordProtected
    else if ¬ fb.Stored then .error .compressedUnsupported
    else validateList rest

/-- The aggregation stage of `ListFilesFS`, applied to the indexed volumes:
validate every block, then aggregate. -/
def listFilesValidate (vs : List VolumeIndex) :
    Except ListError (List AggregatedFile) :=
  match validateList (allBlocks vs) with
  | .error e => .error e
  | .ok _ => .ok (aggregateFiles vs)

/-! ## Concrete volumes from the test suite -/

/-- The single-volume Format-A archive built by `TestParseRar3`: 7-byte
signature, one pad byte, then one file block in the canonical layout —
name length 9 at offset 19 of the fixed region, method `0x30`, packed and
unpacked size 5, name `"file3.txt"`. -/
def rar3CanonicalTestVolume : List Nat :=
  [0x52, 0x61, 0x72, 0x21, 0x1A, 0x07, 0x00, 0x00] ++
  [0, 0, 0x74, 0, 0, 41, 0] ++
  [5, 0, 0, 0, 5, 0, 0, 0, 0, 0, 0, 0, 0, 0, 0, 0, 0, 0, 0x30, 9, 0, 0, 0, 0, 0] ++
  [102, 105, 108, 101, 51, 46, 116, 120, 116]

/-- `"file3.txt"` as bytes. -/
def file3txt : List Nat := [102, 105, 108, 101, 51, 46, 116, 120, 116]

/-- The Format-B volume built by `TestListFiles_Password_RAR5_ReturnsError`:
signature, zero CRC, header length 2, and a block of type 4 (archive
encryption header) with flags 0. -/
def rar5EncryptionBlockVolume : List Nat :=
  [0x52, 0x61, 0x72, 0x21, 0x1A, 0x07, 0x01, 0x00] ++ [0, 0, 0, 0] ++ [2] ++ [4, 0]

/-- The Format-A volume of `TestRar3MainHeaderEncrypted_EarlyError`:
signature followed by a main header block (type `0x73`) with flag `0x0080`. -/
def rar3EncryptedMainVolume : List Nat :=
  [0x52, 0x61, 0x72, 0x21, 0x1A, 0x07, 0x00] ++ [0, 0, 0x73, 0x80, 0x00, 0x07, 0x00]

/-- The volume of `TestListFiles_Compressed_RAR3_ReturnsError`: one file
block with method byte `0x33` (compressed), packed 5, unpacked 10. -/
def rar3CompressedVolume : List Nat :=
  [0x52, 0x61, 0x72, 0x21, 0x1A, 0x07, 0x00, 0x00] ++
  [0, 0, 0x74, 0, 0, 46, 0] ++
  [5, 0, 0, 0, 10, 0, 0, 0, 0, 0, 0, 0, 0, 0, 0, 0, 0, 0, 0x33, 14, 0, 0, 0, 0, 0] ++
  [99, 111, 109, 112, 114, 101, 115, 115, 101, 100, 46, 98, 105, 110]

/-- Scenario F: a Format-A signature preceded by 32 junk bytes (and followed
by at least one byte). -/
def sfxVolume : List Nat :=
  List.replicate 32 0xAA ++ [0x52, 0x61, 0x72, 0x21, 0x1A, 0x07, 0x00] ++ [0]

/-! ## Claims -/

/-- **C1** (code bug).  Indexing the canonical-layout Format-A volume of
`TestParseRar3` (name length 9 stored at offset 19 of the fixed region,
naming `"file3.txt"`, method `0x30`, packed 5, unpacked 5) yields one
RAR3 `VolumeIndex` with exactly one `FileBlock` whose `Stored` flag is
true — but whose `Name` is empty, not `"file3.txt"`: `parseRar3FileHeader`
in `rar3.go` reads the two-byte name length from offset 15 of the fixed
region, where this canonical volume stores zeros, so zero name bytes are
read.  This contradicts the test's own assertion that the name is
`"file3.txt"`. -/
theorem rar3_canonical_volume_loses_name :
    indexSingle "test.rar" rar3CanonicalTestVolume =
      .ok ⟨"test.rar", .rar3, 40, [⟨[], 8, 32, 40, 5, 0, false, 5, true, false⟩]⟩ ∧
    ([] : List Nat) ≠ file3txt := by
  exact ⟨by rfl, by decide⟩

/-- **C2** (code bug).  Indexing the Format-B volume of
`TestListFiles_Password_RAR5_ReturnsError`, whose header chain consists of
an archive-encryption block (type 4), does **not** fail with
`PasswordProtected`: `parseRar5` has no case for block type 4, skips the
block, and returns an empty index successfully, so even the listing
operation would return an empty listing instead of an error. -/
theorem rar5_encryption_block_volume_indexes_ok :
    indexSingle "enc5.rar" rar5EncryptionBlockVolume =
      .ok ⟨"enc5.rar", .rar5, 0, []⟩ ∧
    listFilesValidate [⟨"enc5.rar", .rar5, 0, []⟩] = .ok [] := by
  exact ⟨by rfl, by rfl⟩

/-- **C3** (confirmed).  Whenever the Format-A block loop reads a main
archive header block (type `0x73`) whose flags have bit `0x0080` or bit
`0x0200` set, parsing fails with `PasswordProtected`; and whenever
`parseRar3` fails with `PasswordProtected` on a detected Format-A volume,
`indexSingle` surfaces exactly that error — the legacy fallback branch is
never consulted (the result does not depend on what a legacy scan of the
same volume would return). -/
theorem rar3_encrypted_main_header_fails_password_protected :
    (∀ (data : List Nat) (fuel pos cur : Nat) (blocks : List FileBlock)
        (typ flags size addSize consumed : Nat),
      readRar3BlockHeader data cur = .ok typ flags size addSize consumed →
      typ = 0x73 →
      (flags &&& 0x0080 ≠ 0 ∨ flags &&& 0x0200 ≠ 0) →
      rar3Loop data (fuel + 1) pos cur blocks = .error .passwordProtected) ∧
    (∀ (path : String) (data : List Nat) (off : Nat),
      detectSignature (data.take 1024) = some (.rar3, off) →
      parseRar3 data off = .error .passwordProtected →
      indexSingle path data = .error (.rar3 .passwordProtected)) := by
  constructor
  · intro data fuel pos cur blocks typ flags size addSize consumed hread htyp hflags
    subst htyp
    rw [rar3Loop, hread]
    dsimp only
    rw [if_pos ⟨rfl, hflags⟩]
  · intro path data off hdet hparse
    rw [indexSingle, hdet]
    simp only [hparse]
    simp

/-- Witness for C3: the volume of `TestRar3MainHeaderEncrypted_EarlyError`
exercises both conjuncts at concrete inputs. -/
theorem rar3_encrypted_main_header_fails_password_protected_witness :
    rar3Loop rar3EncryptedMainVolume 15 7 7 [] = .error .passwordProtected ∧
    indexSingle "enc3.rar" rar3EncryptedMainVolume = .error (.rar3 .passwordProtected) := by
  constructor
  · exact rar3_encrypted_main_header_fails_password_protected.1
      rar3EncryptedMainVolume 14 7 7 [] 0x73 0x0080 7 0 7 (by rfl) rfl (Or.inl (by decide))
  · exact rar3_encrypted_main_header_fails_password_protected.2
      "enc3.rar" rar3EncryptedMainVolume 0 (by rfl) (by rfl)

/-- **C8** (confirmed).  For every unsigned 64-bit integer `v`, decoding
the 7-bits-per-byte varint encoding of `v` with the slice decoder or with
the stream decoder succeeds and returns `v` together with a consumed-byte
count equal to the length of the encoding. -/
theorem varint_roundtrip (v : Nat) (hv : v < 2 ^ 64) :
    readVarintFromSlice (encodeVarint v) = .ok (v, (encodeVarint v).length) ∧
    readVarint (encodeVarint v) = .ok (v, (encodeVarint v).length) := by
  have hlen : (encodeVarint v).length ≤ 10 := by
    have h10 := encodeVarint_length_le 9 v
      (by calc v < 2 ^ 64 := hv
        _ ≤ 128 ^ (9 + 1) := by norm_num)
    omega
  have h1 := readVarintFromSliceAux_encode v 0 0 (by norm_num) (by omega)
    (by simpa using hv)
  rw [Nat.mul_zero, Nat.shiftLeft_zero, Nat.zero_add, Nat.zero_add] at h1
  refine ⟨h1, readVarintAux_eq_of_slice_ok _ _ _ _ h1⟩

/-- Witness for C8 at the boundary values 0, 127, 128 and the largest
64-bit value, whose encoding occupies the full 10-byte cap. -/
theorem varint_roundtrip_witness :
    readVarintFromSlice (encodeVarint 0) = .ok (0, (encodeVarint 0).length) ∧
    readVarintFromSlice (encodeVarint 127) = .ok (127, (encodeVarint 127).length) ∧
    readVarint (encodeVarint 128) = .ok (128, (encodeVarint 128).length) ∧
    readVarint (encodeVarint 18446744073709551615) =
      .ok (18446744073709551615, (encodeVarint 18446744073709551615).length) := by
  exact ⟨(varint_roundtrip 0 (by norm_num)).1,
    (varint_roundtrip 127 (by norm_num)).1,
    (varint_roundtrip 128 (by norm_num)).2,
    (varint_roundtrip 18446744073709551615 (by norm_num)).2⟩

/-! ### Ten-byte decodes (C10) -/

/-- `Σ (b i &&& 0x7F) * 2 ^ (7 * (i0 + i))` over the bytes of `b`. -/
def sumBytes : List Nat → Nat → Nat
  | [], _ => 0
  | c :: rest, i => (c &&& 0x7F) * 2 ^ (7 * i) + sumBytes rest (i + 1)

theorem shiftLeft63_mod (x : Nat) : (x <<< 63) % 2 ^ 64 = x % 2 * 2 ^ 63 := by
  rw [Nat.shiftLeft_eq]
  have hsplit : x * 2 ^ 63 = x % 2 * 2 ^ 63 + x / 2 * 2 ^ 64 := by
    calc x * 2 ^ 63 = (x % 2 + 2 * (x / 2)) * 2 ^ 63 := by rw [Nat.mod_add_div]
      _ = x % 2 * 2 ^ 63 + x / 2 * (2 * 2 ^ 63) := by ring
      _ = x % 2 * 2 ^ 63 + x / 2 * 2 ^ 64 := by norm_num
  rw [hsplit, Nat.add_mul_mod_self_right]
  exact Nat.mod_eq_of_lt (by
    have : x % 2 < 2 := Nat.mod_lt x (by omega)
    have h63 : (2 : Nat) ^ 63 < 2 ^ 64 := by norm_num
    calc x % 2 * 2 ^ 63 ≤ 1 * 2 ^ 63 := Nat.mul_le_mul_right _ (by omega)
      _ < 2 ^ 64 := by norm_num)

/-- Multiplication form of `lor_shiftLeft_eq_add`. -/
theorem lor_mul_two_pow_eq_add {a k : Nat} (b : Nat) (h : a < 2 ^ k) :
    a ||| b * 2 ^ k = a + b * 2 ^ k := by
  have hs := lor_shiftLeft_eq_add (a := a) (k := k) b h
  rwa [Nat.shiftLeft_eq] at hs

/-- Decoding a byte run that ends the 10-byte window: if all bytes but the
last carry the continuation bit and the last does not, the loop consumes
everything and accumulates the 7-bit groups modulo `2 ^ 64`. -/
theorem readVarintFromSliceAux_full : ∀ (l : List Nat) (i val : Nat),
    l ≠ [] →
    i + l.length = 10 →
    (∀ j, j + 1 < l.length → byteAt l j &&& 0x80 ≠ 0) →
    (byteAt l (l.length - 1) &&& 0x80 = 0) →
    val < 2 ^ (7 * i) →
    readVarintFromSliceAux l i val = .ok ((val + sumBytes l i) % 2 ^ 64, 10) := by
  intro l
  induction l with
  | nil => intro i val hnil; exact absurd rfl hnil
  | cons c rest ih =>
    intro i val _ hlen hcont hlast hval
    rw [readVarintFromSliceAux]
    simp only [List.length_cons] at hlen
    have hi : ¬ i ≥ 10 := by omega
    rw [if_neg hi]
    have hx : c &&& 0x7F ≤ 127 := Nat.and_le_right
    rcases eq_or_ne rest [] with hnil | hnil
    · -- last byte of the window: i = 9
      subst hnil
      have hi9 : i = 9 := by simp at hlen; omega
      subst hi9
      have hc : c &&& 0x80 = 0 := by simpa [byteAt] using hlast
      rw [if_pos hc]
      have hmod : ((c &&& 0x7F) <<< (7 * 9)) % 2 ^ 64 = (c &&& 0x7F) % 2 * 2 ^ 63 := by
        rw [show 7 * 9 = 63 from rfl, shiftLeft63_mod]
      have hval63 : val < 2 ^ 63 := by
        have : (7 : Nat) * 9 = 63 := rfl
        rw [this] at hval
        exact hval
      rw [hmod, lor_mul_two_pow_eq_add _ hval63]
      have h63 : (2 : Nat) ^ 63 = 9223372036854775808 := by norm_num
      have h64 : (2 : Nat) ^ 64 = 18446744073709551616 := by norm_num
      have harith : (val + sumBytes [c] 9) % 2 ^ 64 = val + (c &&& 0x7F) % 2 * 2 ^ 63 := by
        rw [sumBytes, sumBytes, show 7 * 9 = 63 from rfl, h63, h64]
        rw [h63] at hval63
        omega
      rw [harith]
    · -- interior byte: the continuation bit is set and `rest` is nonempty
      have hrl : 1 ≤ rest.length := by
        rcases rest with _ | _
        · exact absurd rfl hnil
        · simp
      have hc : c &&& 0x80 ≠ 0 := by
        have := hcont 0 (by simp; omega)
        simpa [byteAt] using this
      rw [if_neg hc]
      have hshift_lt : (c &&& 0x7F) <<< (7 * i) < 2 ^ (7 * (i + 1)) := by
        rw [Nat.shiftLeft_eq]
        calc (c &&& 0x7F) * 2 ^ (7 * i) < 128 * 2 ^ (7 * i) := by
              have := Nat.pos_pow_of_pos (7 * i) (show 0 < 2 by omega)
              have := hx
              nlinarith
          _ = 2 ^ (7 * (i + 1)) := by
              rw [show (128 : Nat) = 2 ^ 7 from rfl, ← Nat.pow_add]
              congr 1
              omega
      have hshift64 : (c &&& 0x7F) <<< (7 * i) < 2 ^ 64 := by
        calc (c &&& 0x7F) <<< (7 * i) < 2 ^ (7 * (i + 1)) := hshift_lt
          _ ≤ 2 ^ 64 := Nat.pow_le_pow_right (by omega) (by omega)
      rw [Nat.mod_eq_of_lt hshift64, lor_shiftLeft_eq_add _ hval]
      have hrec := ih (i + 1) (val + (c &&& 0x7F) <<< (7 * i)) hnil (by omega)
        (fun j hj => by
          have := hcont (j + 1) (by simp; omega)
          simpa [byteAt] using this)
        (by
          have := hlast
          simp only [List.length_cons] at this
          have he : (rest.length + 1 - 1 : Nat) = rest.length := by omega
          rw [he] at this
          have he2 : byteAt (c :: rest) rest.length = byteAt rest (rest.length - 1) := by
            obtain ⟨n, hn⟩ : ∃ n, rest.length = n + 1 := ⟨rest.length - 1, by omega⟩
            rw [hn]
            simp [byteAt]
          rwa [he2] at this)
        (by
          have h1 : (128 : Nat) * 2 ^ (7 * i) = 2 ^ (7 * (i + 1)) := by
            rw [show (128 : Nat) = 2 ^ 7 from rfl, ← Nat.pow_add]
            congr 1
            omega
          have h2 : (c &&& 0x7F) <<< (7 * i) ≤ 127 * 2 ^ (7 * i) := by
            rw [Nat.shiftLeft_eq]
            exact Nat.mul_le_mul_right _ hx
          have h3 := Nat.pos_pow_of_pos (7 * i) (show 0 < 2 by omega)
          omega)
      rw [hrec]
      have harith : val + (c &&& 0x7F) <<< (7 * i) + sumBytes rest (i + 1) =
          val + sumBytes (c :: rest) i := by
        rw [sumBytes, Nat.shiftLeft_eq]
        ring
      rw [harith]

/-- **C10 counterexample.**  A 10-byte input whose tenth byte has the
continuation bit clear: because its *first* byte already has the
continuation bit clear, both decoders stop after one byte — they do not
consume 10 bytes as the claim states. -/
theorem ten_byte_early_terminator_consumes_one :
    [0, 0x80, 0x80, 0x80, 0x80, 0x80, 0x80, 0x80, 0x80, 0].length = 10 ∧
    byteAt [0, 0x80, 0x80, 0x80, 0x80, 0x80, 0x80, 0x80, 0x80, 0] 9 &&& 0x80 = 0 ∧
    readVarintFromSlice [0, 0x80, 0x80, 0x80, 0x80, 0x80, 0x80, 0x80, 0x80, 0] =
      .ok (0, 1) ∧
    readVarint [0, 0x80, 0x80, 0x80, 0x80, 0x80, 0x80, 0x80, 0x80, 0] = .ok (0, 1) ∧
    (1 : Nat) ≠ 10 := by
  exact ⟨by rfl, by rfl, by rfl, by rfl, by decide⟩

/-- **C10** (corrected).  For every 10-byte input whose first nine bytes
have the continuation bit set and whose tenth byte has it clear, both
decoders succeed, consume exactly 10 bytes, and return
`Σ i<10, (byte i &&& 0x7F) * 2 ^ (7 * i)` reduced modulo `2 ^ 64` — the top
six payload bits are discarded.  In particular two distinct 10-byte
encodings representing different mathematical values decode to the same
64-bit result (`…80…01` and `…80…03`). -/
theorem ten_byte_full_decode (b : List Nat) (hlen : b.length = 10)
    (hcont : ∀ j, j < 9 → byteAt b j &&& 0x80 ≠ 0)
    (hlast : byteAt b 9 &&& 0x80 = 0) :
    readVarintFromSlice b = .ok (sumBytes b 0 % 2 ^ 64, 10) ∧
    readVarint b = .ok (sumBytes b 0 % 2 ^ 64, 10) := by
  have h := readVarintFromSliceAux_full b 0 0
    (by intro h; rw [h] at hlen; simp at hlen)
    (by omega)
    (by intro j hj; exact hcont j (by omega))
    (by rw [hlen]; exact hlast)
    (by norm_num)
  rw [Nat.zero_add] at h
  exact ⟨h, readVarintAux_eq_of_slice_ok _ _ _ _ h⟩

/-- Witness for C10: the full 10-byte decode at two concrete inputs whose
mathematical payloads `2 ^ 63` and `3 * 2 ^ 63` differ while the decoded
64-bit results agree. -/
theorem ten_byte_full_decode_witness :
    readVarintFromSlice [0x80, 0x80, 0x80, 0x80, 0x80, 0x80, 0x80, 0x80, 0x80, 0x01] =
      .ok (sumBytes [0x80, 0x80, 0x80, 0x80, 0x80, 0x80, 0x80, 0x80, 0x80, 0x01] 0 % 2 ^ 64, 10) ∧
    readVarint [0x80, 0x80, 0x80, 0x80, 0x80, 0x80, 0x80, 0x80, 0x80, 0x03] =
      .ok (sumBytes [0x80, 0x80, 0x80, 0x80, 0x80, 0x80, 0x80, 0x80, 0x80, 0x03] 0 % 2 ^ 64, 10) ∧
    sumBytes [0x80, 0x80, 0x80, 0x80, 0x80, 0x80, 0x80, 0x80, 0x80, 0x01] 0 ≠
      sumBytes [0x80, 0x80, 0x80, 0x80, 0x80, 0x80, 0x80, 0x80, 0x80, 0x03] 0 ∧
    sumBytes [0x80, 0x80, 0x80, 0x80, 0x80, 0x80, 0x80, 0x80, 0x80, 0x01] 0 % 2 ^ 64 =
      sumBytes [0x80, 0x80, 0x80, 0x80, 0x80, 0x80, 0x80, 0x80, 0x80, 0x03] 0 % 2 ^ 64 := by
  refine ⟨(ten_byte_full_decode _ (by rfl) (by decide) (by rfl)).1,
    (ten_byte_full_decode _ (by rfl) (by decide) (by rfl)).2, by decide, by decide⟩

/-! ### Signature detection characterization (C7) -/

/-- Specification-style description of the detector: the leftmost offset
`i` with `i + 7 < len(buf)` at which either signature matches, the longer
Format-B pattern checked first at each offset.  (Offsets in the final
7 bytes of the window are never examined.) -/
def detectSignatureSpec (buf : List Nat) : Option (RarVersion × Nat) :=
  ((List.range' 0 (buf.length - 7)).find?
      (fun i => sigMatchAt buf rarrSigV5 i || sigMatchAt buf rarrSigV3 i)).map
    (fun i => (if sigMatchAt buf rarrSigV5 i then RarVersion.rar5 else .rar3, i))

theorem detectSignatureFrom_eq_find : ∀ (buf : List Nat) (fuel i : Nat),
    buf.length - i < fuel →
    detectSignatureFrom buf fuel i =
      ((List.range' i (buf.length - 7 - i)).find?
          (fun j => sigMatchAt buf rarrSigV5 j || sigMatchAt buf rarrSigV3 j)).map
        (fun j => (if sigMatchAt buf rarrSigV5 j then RarVersion.rar5 else .rar3, j)) := by
  intro buf fuel
  induction fuel with
  | zero => intro i h; omega
  | succ fuel ih =>
    intro i hfuel
    rw [detectSignatureFrom]
    by_cases h7 : i + 7 < buf.length
    · rw [if_pos h7]
      have hsplit : buf.length - 7 - i = (buf.length - 7 - (i + 1)) + 1 := by omega
      rw [hsplit, List.range'_succ]
      by_cases h5 : sigMatchAt buf rarrSigV5 i
      · rw [if_pos h5, List.find?_cons_of_pos _ (by simp [h5])]
        simp [h5]
      · rw [if_neg h5]
        by_cases h3 : sigMatchAt buf rarrSigV3 i
        · rw [if_pos h3, List.find?_cons_of_pos _ (by simp [h3])]
          simp [h5, h3]
        · rw [if_neg h3, List.find?_cons_of_neg _ (by simp [h5, h3])]
          exact ih (i + 1) (by omega)
    · rw [if_neg h7]
      have hz : buf.length - 7 - i = 0 := by omega
      rw [hz]
      simp [List.range']

/-- **C7 counterexample.**  A window consisting of exactly the 7-byte
Format-A signature: the pattern occurs (at offset 0), yet detection fails,
because the scan loop requires `i + 7 < len(buf)` and never examines an
offset whose match would end at the last byte of the window.  This refutes
the claim's "fails iff neither pattern occurs anywhere in the window". -/
theorem detectSignature_misses_trailing_signature :
    sigMatchAt rarrSigV3 rarrSigV3 0 = true ∧
    detectSignature rarrSigV3 = none := by
  exact ⟨by rfl, by rfl⟩

/-- **C7** (corrected).  The detector returns the format and offset of the
leftmost occurrence of either signature *among the offsets `i` with
`i + 7 < len(buf)`*, the 8-byte Format-B pattern checked before the 7-byte
Format-A pattern at each offset; it fails iff neither pattern occurs at any
such offset (a Format-A signature ending exactly at the window's last byte
is missed).  A Format-A signature preceded by 32 junk bytes (and followed
by at least one byte) is detected as Format-A at offset 32. -/
theorem detectSignature_leftmost_scan (buf : List Nat) :
    detectSignature buf = detectSignatureSpec buf ∧
    (detectSignature buf = none ↔
      ∀ i, i + 7 < buf.length →
        sigMatchAt buf rarrSigV5 i = false ∧ sigMatchAt buf rarrSigV3 i = false) ∧
    detectSignature sfxVolume = some (.rar3, 32) := by
  have hmain : detectSignature buf = detectSignatureSpec buf := by
    rw [detectSignature, detectSignatureSpec,
      detectSignatureFrom_eq_find buf (buf.length + 1) 0 (by omega)]
    norm_num
  refine ⟨hmain, ?_, by rfl⟩
  rw [hmain, detectSignatureSpec]
  simp only [Option.map_eq_none', List.find?_eq_none, List.mem_range'_1]
  constructor
  · intro h i hi
    have := h i ⟨by omega, by omega⟩
    simp only [Bool.or_eq_true, not_or] at this
    exact ⟨by simpa using this.1, by simpa using this.2⟩
  · intro h i hi
    have := h i (by omega)
    simp [this.1, this.2]

/-- **C5** (confirmed).  In the Format-B block loop, once the 4-byte CRC
has been read and the header-length varint decoded to `hs` (consuming `n`
bytes): a header length of zero ends parsing successfully with the blocks
collected so far; a header length above the 2 MiB ceiling fails with the
suspicious-header error; and when the known file size is positive and the
header would extend past it, parsing stops successfully, adding no block. -/
theorem rar5_header_length_guards (data : List Nat) (fileSize fuel pos : Nat)
    (blocks : List FileBlock) (thb : Int) (hs n : Nat)
    (hnotend : ¬ (0 < fileSize ∧ pos ≥ fileSize))
    (hcrc : pos + 4 ≤ data.length)
    (hvar : readVarint (data.drop (pos + 4)) = .ok (hs, n)) :
    (hs = 0 → rar5Loop data fileSize (fuel + 1) pos blocks thb = .ok (thb, blocks)) ∧
    (hs > 2 * 1024 * 1024 →
      rar5Loop data fileSize (fuel + 1) pos blocks thb = .error .suspiciousHeadSize) ∧
    (0 < fileSize → hs ≠ 0 → hs ≤ 2 * 1024 * 1024 → pos + 4 + n + hs > fileSize →
      rar5Loop data fileSize (fuel + 1) pos blocks thb = .ok (thb, blocks)) := by
  refine ⟨fun h0 => ?_, fun hbig => ?_, fun hfs hne hle hpast => ?_⟩
  · rw [rar5Loop, if_neg hnotend, if_neg (by omega : ¬ pos ≥ data.length),
      if_neg (by omega : ¬ pos + 4 > data.length), hvar]
    dsimp only
    rw [if_pos h0]
  · rw [rar5Loop, if_neg hnotend, if_neg (by omega : ¬ pos ≥ data.length),
      if_neg (by omega : ¬ pos + 4 > data.length), hvar]
    dsimp only
    rw [if_neg (by omega : ¬ hs = 0), if_pos hbig]
  · rw [rar5Loop, if_neg hnotend, if_neg (by omega : ¬ pos ≥ data.length),
      if_neg (by omega : ¬ pos + 4 > data.length), hvar]
    dsimp only
    rw [if_neg hne, if_neg (by omega : ¬ hs > 2 * 1024 * 1024),
      if_pos (show 0 < fileSize ∧ pos + 4 + n + hs > fileSize from ⟨hfs, hpast⟩)]

/-- Witness for C5: a zero header length, a 2 MiB + 1 header length, and a
header length overrunning a 13-byte file, each on a concrete volume. -/
theorem rar5_header_length_guards_witness :
    rar5Loop [0x52, 0x61, 0x72, 0x21, 0x1A, 0x07, 0x01, 0x00, 0, 0, 0, 0, 0]
      13 1 8 [] 0 = .ok (0, []) ∧
    rar5Loop [0x52, 0x61, 0x72, 0x21, 0x1A, 0x07, 0x01, 0x00, 0, 0, 0, 0,
        0x81, 0x80, 0x80, 0x01] 16 1 8 [] 0 = .error .suspiciousHeadSize ∧
    rar5Loop [0x52, 0x61, 0x72, 0x21, 0x1A, 0x07, 0x01, 0x00, 0, 0, 0, 0, 0x05]
      13 1 8 [] 0 = .ok (0, []) := by
  refine ⟨(rar5_header_length_guards _ 13 0 8 [] 0 0 1
      (by omega) (by decide) (by rfl)).1 rfl,
    (rar5_header_length_guards _ 16 0 8 [] 0 2097153 4
      (by omega) (by decide) (by rfl)).2.1 (by omega),
    (rar5_header_length_guards _ 13 0 8 [] 0 5 1
      (by omega) (by decide) (by rfl)).2.2 (by omega) (by omega) (by omega) (by omega)⟩

/-! ### The data-offset invariant (C9) -/

/-- Blocks built by the Format-B file-header branch place their data right
after the header. -/
theorem parseRar5File_inv (bs : List Nat) (hdrStart headSizeLen headSize dataSize : Nat)
    (fb : FileBlock) (h : parseRar5File bs hdrStart headSizeLen headSize dataSize = .ok fb) :
    fb.DataPos = fb.HeaderPos + fb.HeaderSize := by
  rw [parseRar5File] at h
  dsimp only at h
  repeat' split at h
  all_goals (try exact Except.noConfusion h)
  all_goals
    cases h
    show ((hdrStart + 4 + headSizeLen + headSize : Nat) : Int) =
      (hdrStart : Int) + ((4 + headSizeLen + headSize : Nat) : Int)
    push_cast
    ring

/-- The blocks carried by a `Rar5Step`. -/
def rar5StepBlocks : Rar5Step → List FileBlock
  | .finished _ b => b
  | .next _ b _ => b

/-- The file-block step preserves the data-offset invariant. -/
theorem rar5FileStep_inv (headData : List Nat)
    (blockSpecificEnd cur2 blockType pos headSizeLen headSize dataSize : Nat)
    (blocks : List FileBlock) (thb : Int) (blocks2 : List FileBlock) (thb2 : Int)
    (hinv : ∀ fb ∈ blocks, fb.DataPos = fb.HeaderPos + fb.HeaderSize)
    (h : rar5FileStep headData blockSpecificEnd cur2 blockType pos headSizeLen
      headSize dataSize blocks thb = .ok (blocks2, thb2)) :
    ∀ fb ∈ blocks2, fb.DataPos = fb.HeaderPos + fb.HeaderSize := by
  rw [rar5FileStep] at h
  repeat' split at h
  all_goals (try exact Except.noConfusion h)
  all_goals (try (cases h; exact hinv))
  all_goals
    injection h with hpair
    injection hpair with h1 h2
    subst h1
    intro b hb
    rcases List.mem_append.mp hb with hm | hm
    · exact hinv b hm
    · rw [List.mem_singleton] at hm
      subst hm
      exact parseRar5File_inv _ _ _ _ _ _ (by assumption)

/-- Header processing preserves the data-offset invariant. -/
theorem rar5ProcessHeader_inv (headData : List Nat)
    (pos pos3 headSizeLen headSize : Nat) (blocks : List FileBlock) (thb : Int)
    (st : Rar5Step)
    (hinv : ∀ fb ∈ blocks, fb.DataPos = fb.HeaderPos + fb.HeaderSize)
    (h : rar5ProcessHeader headData pos pos3 headSizeLen headSize blocks thb = .ok st) :
    ∀ fb ∈ rar5StepBlocks st, fb.DataPos = fb.HeaderPos + fb.HeaderSize := by
  rw [rar5ProcessHeader] at h
  repeat' split at h
  all_goals (try exact Except.noConfusion h)
  all_goals
    cases h
    exact rar5FileStep_inv _ _ _ _ _ _ _ _ _ _ _ _ hinv (by assumption)

/-- The Format-B loop only ever appends blocks whose data starts right
after their header. -/
theorem rar5Loop_inv (data : List Nat) (fileSize : Nat) : ∀ (fuel pos : Nat)
    (blocks : List FileBlock) (thb : Int) (res : Int × List FileBlock),
    (∀ fb ∈ blocks, fb.DataPos = fb.HeaderPos + fb.HeaderSize) →
    rar5Loop data fileSize fuel pos blocks thb = .ok res →
    ∀ fb ∈ res.2, fb.DataPos = fb.HeaderPos + fb.HeaderSize := by
  intro fuel
  induction fuel with
  | zero =>
    intro pos blocks thb res hinv hok
    rw [rar5Loop] at hok
    exact Except.noConfusion hok
  | succ fuel ih =>
    intro pos blocks thb res hinv hok
    rw [rar5Loop] at hok
    repeat' split at hok
    all_goals (try exact Except.noConfusion hok)
    all_goals (try (cases hok; exact hinv))
    all_goals
      first
      | (rename_i thb2 blocks2 heq
         cases hok
         exact rar5ProcessHeader_inv _ _ _ _ _ _ _ _ hinv heq)
      | (rename_i pos2 blocks2 thb2 heq
         exact ih _ _ _ _
           (rar5ProcessHeader_inv _ _ _ _ _ _ _ _ hinv heq) hok)

/-- Blocks built by the Format-A file-header parser place their data right
after the header. -/
theorem parseRar3FileHeader_inv (data : List Nat) (cur hdrStart flags : Nat)
    (fb : FileBlock) (cur2 : Nat)
    (h : parseRar3FileHeader data cur hdrStart flags = .ok (fb, cur2)) :
    fb.DataPos = fb.HeaderPos + fb.HeaderSize := by
  rw [parseRar3FileHeader] at h
  dsimp only at h
  repeat' split at h
  all_goals (try exact Except.noConfusion h)
  all_goals
    cases h
    push_cast
    ring

/-- The Format-A block loop only ever appends blocks whose data starts
right after their header. -/
theorem rar3Loop_inv (data : List Nat) : ∀ (fuel pos cur : Nat)
    (blocks : List FileBlock) (res : Int × List FileBlock),
    (∀ fb ∈ blocks, fb.DataPos = fb.HeaderPos + fb.HeaderSize) →
    rar3Loop data fuel pos cur blocks = .ok res →
    ∀ fb ∈ res.2, fb.DataPos = fb.HeaderPos + fb.HeaderSize := by
  intro fuel
  induction fuel with
  | zero =>
    intro pos cur blocks res hinv hok
    rw [rar3Loop] at hok
    exact Except.noConfusion hok
  | succ fuel ih =>
    intro pos cur blocks res hinv hok
    rw [rar3Loop] at hok
    repeat' split at hok
    all_goals (try exact Except.noConfusion hok)
    all_goals (try (cases hok; exact hinv))
    all_goals (try (exact ih _ _ _ _ hinv hok))
    all_goals
      cases hok
      intro b hb
      rcases List.mem_append.mp hb with hm | hm
      · exact hinv b hm
      · rw [List.mem_singleton] at hm
        subst hm
        exact parseRar3FileHeader_inv _ _ _ _ _ _ (by assumption)

/-- `parseRar3` respects the data-offset invariant. -/
theorem parseRar3_inv (data : List Nat) (base : Nat) (res : Int × List FileBlock)
    (h : parseRar3 data base = .ok res) :
    ∀ fb ∈ res.2, fb.DataPos = fb.HeaderPos + fb.HeaderSize := by
  rw [parseRar3] at h
  dsimp only at h
  split at h
  · exact Except.noConfusion h
  · exact rar3Loop_inv data _ _ _ _ _ (by intro fb hfb; cases hfb) h

/-- The single block found by a successful legacy candidate inspection has
its data right after the header. -/
theorem legacyCandidate_inv (buf : List Nat) (baseOffset typePos : Nat)
    (r : Int × FileBlock)
    (h : legacyCandidate buf baseOffset typePos = some (.ok r)) :
    r.2.DataPos = r.2.HeaderPos + r.2.HeaderSize := by
  rw [legacyCandidate] at h
  dsimp only at h
  repeat' split at h
  all_goals (try exact Option.noConfusion h)
  all_goals
    injection h with h1
    first
    | exact Except.noConfusion h1
    | (injection h1 with h2
       cases h2
       rfl)

/-- The legacy scan loop respects the data-offset invariant. -/
theorem legacyScanFrom_inv (buf : List Nat) (baseOffset : Nat) : ∀ (fuel start : Nat)
    (r : Int × FileBlock),
    legacyScanFrom buf baseOffset fuel start = .ok r →
    r.2.DataPos = r.2.HeaderPos + r.2.HeaderSize := by
  intro fuel
  induction fuel with
  | zero =>
    intro start r h
    rw [legacyScanFrom] at h
    exact Except.noConfusion h
  | succ fuel ih =>
    intro start r h
    rw [legacyScanFrom] at h
    repeat' split at h
    all_goals (try exact Except.noConfusion h)
    all_goals (try (exact ih _ _ h))
    subst h
    exact legacyCandidate_inv _ _ _ _ (by assumption)

/-- **C9** (confirmed).  For every `FileBlock` produced by any of the three
parsers — the Format-B loop, the Format-A parser, and the legacy scanner —
the data start offset equals the header start offset plus the header byte
length: `DataPos = HeaderPos + HeaderSize`. -/
theorem data_offset_invariant :
    (∀ (data : List Nat) (fileSize fuel pos : Nat) (blocks : List FileBlock)
        (thb : Int) (res : Int × List FileBlock),
      (∀ fb ∈ blocks, fb.DataPos = fb.HeaderPos + fb.HeaderSize) →
      rar5Loop data fileSize fuel pos blocks thb = .ok res →
      ∀ fb ∈ res.2, fb.DataPos = fb.HeaderPos + fb.HeaderSize) ∧
    (∀ (data : List Nat) (base : Nat) (res : Int × List FileBlock),
      parseRar3 data base = .ok res →
      ∀ fb ∈ res.2, fb.DataPos = fb.HeaderPos + fb.HeaderSize) ∧
    (∀ (data : List Nat) (base : Nat) (r : Int × FileBlock),
      scanLegacy data base = .ok r →
      r.2.DataPos = r.2.HeaderPos + r.2.HeaderSize) := by
  refine ⟨fun data fileSize fuel pos blocks thb res hinv hok =>
      rar5Loop_inv data fileSize fuel pos blocks thb res hinv hok,
    fun data base res h => parseRar3_inv data base res h,
    fun data base r h => ?_⟩
  rw [scanLegacy] at h
  exact legacyScanFrom_inv _ _ _ _ _ h

/-- A volume whose legacy scan succeeds (pad byte plus a `0x74` block with
name length at offset 19 of the fixed region, as the legacy layout has). -/
def legacyVolume : List Nat :=
  [0x52, 0x61, 0x72, 0x21, 0x1A, 0x07, 0x00, 0x00] ++
  [0, 0, 0x74, 0, 0, 41, 0] ++
  [5, 0, 0, 0, 5, 0, 0, 0, 0, 0, 0, 0, 0, 0, 0, 0, 0, 0, 0x30, 9, 0, 0, 0, 0, 0] ++
  [102, 105, 108, 101, 51, 46, 116, 120, 116]

/-- Witness for C9: the invariant at the concrete parses of the Format-B
test volume, the Format-A test volume and a legacy-scanned volume. -/
theorem data_offset_invariant_witness :
    (∀ fb ∈ ((32, [(⟨[102, 105, 108, 101, 53, 46, 100, 97, 116, 97], 8, 24, 32, 0, 0,
        false, 5, true, false⟩ : FileBlock)]) : Int × List FileBlock).2,
      fb.DataPos = fb.HeaderPos + fb.HeaderSize) ∧
    (∀ fb ∈ ((40, [(⟨[], 8, 32, 40, 5, 0, false, 5, true, false⟩ : FileBlock)]) :
        Int × List FileBlock).2,
      fb.DataPos = fb.HeaderPos + fb.HeaderSize) ∧
    ((49 : Int), (⟨file3txt, 8, 41, 49, 5, 0, false, 5, true, false⟩ : FileBlock)).2.DataPos =
      ((49 : Int), (⟨file3txt, 8, 41, 49, 5, 0, false, 5, true, false⟩ : FileBlock)).2.HeaderPos +
      ((49 : Int), (⟨file3txt, 8, 41, 49, 5, 0, false, 5, true, false⟩ : FileBlock)).2.HeaderSize := by
  refine ⟨data_offset_invariant.1
      ([0x52, 0x61, 0x72, 0x21, 0x1A, 0x07, 0x01, 0x00, 0, 0, 0, 0, 19,
        2, 0x02, 0, 0, 5, 0, 0, 0, 10] ++ [102, 105, 108, 101, 53, 46, 100, 97, 116, 97])
      32 33 8 [] 0 _ (by intro fb hfb; cases hfb) (by rfl),
    data_offset_invariant.2.1 rar3CanonicalTestVolume 0 _ (by rfl),
    data_offset_invariant.2.2 legacyVolume 0 _ (by rfl)⟩

/-! ### Listing validation (C4) -/

theorem validateList_ok (l : List FileBlock)
    (h : ∀ fb ∈ l, fb.Encrypted = false ∧ fb.Stored = true) :
    validateList l = .ok () := by
  induction l with
  | nil => rfl
  | cons fb rest ih =>
    rw [validateList]
    have hfb := h fb (by simp)
    rw [if_neg (by simp [hfb.1]), if_neg (by simp [hfb.2])]
    exact ih (fun b hb => h b (by simp [hb]))

theorem validateList_password (l : List FileBlock)
    (hex : ∃ fb ∈ l, fb.Encrypted = true) (hall : ∀ fb ∈ l, fb.Stored = true) :
    validateList l = .error .passwordProtected := by
  induction l with
  | nil => obtain ⟨fb, hfb, _⟩ := hex; cases hfb
  | cons fb rest ih =>
    rw [validateList]
    by_cases he : fb.Encrypted
    · rw [if_pos he]
    · rw [if_neg he, if_neg (by simp [hall fb (by simp)])]
      refine ih ?_ (fun b hb => hall b (by simp [hb]))
      obtain ⟨b, hb, hbe⟩ := hex
      rcases List.mem_cons.mp hb with rfl | hb'
      · exact absurd hbe he
      · exact ⟨b, hb', hbe⟩

theorem validateList_compressed (l : List FileBlock)
    (hex : ∃ fb ∈ l, fb.Stored = false) (hall : ∀ fb ∈ l, fb.Encrypted = false) :
    validateList l = .error .compressedUnsupported := by
  induction l with
  | nil => obtain ⟨fb, hfb, _⟩ := hex; cases hfb
  | cons fb rest ih =>
    rw [validateList]
    rw [if_neg (by simp [hall fb (by simp)])]
    by_cases hs : fb.Stored
    · rw [if_neg (by simp [hs])]
      refine ih ?_ (fun b hb => hall b (by simp [hb]))
      obtain ⟨b, hb, hbs⟩ := hex
      rcases List.mem_cons.mp hb with rfl | hb'
      · rw [hs] at hbs; cases hbs
      · exact ⟨b, hb', hbs⟩
    · rw [if_pos (by simpa using hs)]

theorem validateList_error (l : List FileBlock)
    (hex : ∃ fb ∈ l, fb.Encrypted = true ∨ fb.Stored = false) :
    ∃ e, validateList l = .error e := by
  induction l with
  | nil => obtain ⟨fb, hfb, _⟩ := hex; cases hfb
  | cons fb rest ih =>
    rw [validateList]
    by_cases he : fb.Encrypted
    · exact ⟨.passwordProtected, by rw [if_pos he]⟩
    · rw [if_neg he]
      by_cases hs : fb.Stored
      · rw [if_neg (by simp [hs])]
        refine ih ?_
        obtain ⟨b, hb, hbc⟩ := hex
        rcases List.mem_cons.mp hb with rfl | hb'
        · rcases hbc with hbc | hbc
          · exact absurd hbc he
          · rw [hs] at hbc; cases hbc
        · exact ⟨b, hb', hbc⟩
      · exact ⟨.compressedUnsupported, by rw [if_pos (by simpa using hs)]⟩

/-- The volume of `TestListFiles_Password_RAR3_ReturnsError`: a Format-A
file block with the per-block encryption flag `0x0004`. -/
def rar3EncryptedFileVolume : List Nat :=
  [0x52, 0x61, 0x72, 0x21, 0x1A, 0x07, 0x00, 0x00] ++
  [0, 0, 0x74, 0x04, 0, 42, 0] ++
  [5, 0, 0, 0, 5, 0, 0, 0, 0, 0, 0, 0, 0, 0, 0, 0, 0, 0, 0x30, 10, 0, 0, 0, 0, 0] ++
  [115, 101, 99, 114, 101, 116, 46, 116, 120, 116]

/-- **C4** (confirmed).  The listing operation's validation stage fails with
`PasswordProtected` when some indexed block is encrypted (and all blocks are
stored), fails with `CompressedUnsupported` when some block is not stored
(and none is encrypted), fails with one of the two errors whenever either
condition occurs, and otherwise returns the aggregation.  Per-volume
indexing of the same input does not fail on these conditions: indexing the
compressed-file test volume succeeds, merely recording `Stored = false`,
while listing it fails. -/
theorem listing_rejects_encrypted_and_unstored (vs : List VolumeIndex) :
    ((∃ fb ∈ allBlocks vs, fb.Encrypted = true ∨ fb.Stored = false) →
      ∃ e, listFilesValidate vs = .error e) ∧
    ((∃ fb ∈ allBlocks vs, fb.Encrypted = true) →
      (∀ fb ∈ allBlocks vs, fb.Stored = true) →
      listFilesValidate vs = .error .passwordProtected) ∧
    ((∃ fb ∈ allBlocks vs, fb.Stored = false) →
      (∀ fb ∈ allBlocks vs, fb.Encrypted = false) →
      listFilesValidate vs = .error .compressedUnsupported) ∧
    ((∀ fb ∈ allBlocks vs, fb.Encrypted = false ∧ fb.Stored = true) →
      listFilesValidate vs = .ok (aggregateFiles vs)) ∧
    (indexSingle "compressed.rar" rar3CompressedVolume =
        .ok ⟨"compressed.rar", .rar3, 40, [⟨[], 8, 32, 40, 5, 0, true, 10, false, false⟩]⟩ ∧
      listFilesValidate [⟨"compressed.rar", .rar3, 40,
        [⟨[], 8, 32, 40, 5, 0, true, 10, false, false⟩]⟩] = .error .compressedUnsupported) := by
  refine ⟨?_, ?_, ?_, ?_, by rfl, by rfl⟩
  · intro hex
    obtain ⟨e, he⟩ := validateList_error (allBlocks vs) hex
    exact ⟨e, by rw [listFilesValidate, he]⟩
  · intro hex hall
    rw [listFilesValidate, validateList_password (allBlocks vs) hex hall]
  · intro hex hall
    rw [listFilesValidate, validateList_compressed (allBlocks vs) hex hall]
  · intro hall
    rw [listFilesValidate, validateList_ok (allBlocks vs) hall]

/-- Witness for C4 at concrete indexes: the encrypted-file volume makes the
listing fail with `PasswordProtected`, the compressed volume with
`CompressedUnsupported`, and clean volumes are aggregated. -/
theorem listing_rejects_encrypted_and_unstored_witness :
    listFilesValidate [⟨"encrypted.rar", .rar3, 40,
      [⟨[], 8, 32, 40, 5, 0, false, 5, true, true⟩]⟩] = .error .passwordProtected ∧
    listFilesValidate [⟨"compressed.rar", .rar3, 40,
      [⟨[], 8, 32, 40, 5, 0, true, 10, false, false⟩]⟩] = .error .compressedUnsupported ∧
    (∃ e, listFilesValidate [⟨"encrypted.rar", .rar3, 40,
      [⟨[], 8, 32, 40, 5, 0, false, 5, true, true⟩]⟩] = .error e) ∧
    listFilesValidate [⟨"test.rar", .rar3, 40,
        [⟨[], 8, 32, 40, 5, 0, false, 5, true, false⟩]⟩] =
      .ok (aggregateFiles [⟨"test.rar", .rar3, 40,
        [⟨[], 8, 32, 40, 5, 0, false, 5, true, false⟩]⟩]) := by
  refine ⟨(listing_rejects_encrypted_and_unstored _).2.1
      ⟨⟨[], 8, 32, 40, 5, 0, false, 5, true, true⟩, by simp [allBlocks], rfl⟩
      (by intro fb hfb; simp [allBlocks] at hfb; rw [hfb]),
    (listing_rejects_encrypted_and_unstored _).2.2.1
      ⟨⟨[], 8, 32, 40, 5, 0, true, 10, false, false⟩, by simp [allBlocks], rfl⟩
      (by intro fb hfb; simp [allBlocks] at hfb; rw [hfb]),
    (listing_rejects_encrypted_and_unstored _).1
      ⟨⟨[], 8, 32, 40, 5, 0, false, 5, true, true⟩, by simp [allBlocks], Or.inl rfl⟩,
    (listing_rejects_encrypted_and_unstored _).2.2.2.1
      (by intro fb hfb; simp [allBlocks] at hfb; rw [hfb]; exact ⟨rfl, rfl⟩)⟩

/-! ### Aggregation characterization (C6) -/

/-- Order-preserving deduplication: the distinct names in first-seen order
(the `order` slice of `AggregateFiles`). -/
def firstSeenAux : List (List Nat) → List (List Nat) → List (List Nat)
  | [], acc => acc
  | n :: rest, acc => firstSeenAux rest (if n ∈ acc then acc else acc ++ [n])

def firstSeen (l : List (List Nat)) : List (List Nat) := firstSeenAux l []

theorem firstSeenAux_append (l : List (List Nat)) (n : List Nat) :
    ∀ acc, firstSeenAux (l ++ [n]) acc =
      (if n ∈ firstSeenAux l acc then firstSeenAux l acc
       else firstSeenAux l acc ++ [n]) := by
  induction l with
  | nil => intro acc; rfl
  | cons m rest ih =>
    intro acc
    rw [List.cons_append, firstSeenAux, firstSeenAux, ih]

theorem mem_firstSeenAux (l : List (List Nat)) :
    ∀ acc nm, nm ∈ firstSeenAux l acc ↔ nm ∈ acc ∨ nm ∈ l := by
  induction l with
  | nil => intro acc nm; simp [firstSeenAux]
  | cons m rest ih =>
    intro acc nm
    rw [firstSeenAux, ih]
    by_cases hm : m ∈ acc
    · rw [if_pos hm]
      constructor
      · rintro (h | h)
        · exact Or.inl h
        · exact Or.inr (by simp [h])
      · rintro (h | h)
        · exact Or.inl h
        · rcases List.mem_cons.mp h with rfl | h'
          · exact Or.inl hm
          · exact Or.inr h'
    · rw [if_neg hm]
      constructor
      · rintro (h | h)
        · rcases List.mem_append.mp h with h' | h'
          · exact Or.inl h'
          · exact Or.inr (by simp [List.mem_singleton.mp h'])
        · exact Or.inr (by simp [h])
      · rintro (h | h)
        · exact Or.inl (List.mem_append.mpr (Or.inl h))
        · rcases List.mem_cons.mp h with rfl | h'
          · exact Or.inl (by simp)
          · exact Or.inr h'

theorem nodup_firstSeenAux (l : List (List Nat)) :
    ∀ acc, acc.Nodup → (firstSeenAux l acc).Nodup := by
  induction l with
  | nil => intro acc h; exact h
  | cons m rest ih =>
    intro acc h
    rw [firstSeenAux]
    by_cases hm : m ∈ acc
    · rw [if_pos hm]; exact ih acc h
    · rw [if_neg hm]
      exact ih _ (by simp [List.nodup_append, h, hm])

theorem mem_firstSeen (l : List (List Nat)) (nm : List Nat) :
    nm ∈ firstSeen l ↔ nm ∈ l := by
  rw [firstSeen, mem_firstSeenAux]
  simp

theorem nodup_firstSeen (l : List (List Nat)) : (firstSeen l).Nodup :=
  nodup_firstSeenAux l [] List.nodup_nil

theorem firstSeen_append (l : List (List Nat)) (n : List Nat) :
    firstSeen (l ++ [n]) =
      if n ∈ firstSeen l then firstSeen l else firstSeen l ++ [n] := by
  rw [firstSeen, firstSeenAux_append]
  rfl

/-- One aggregated part from a `(path, block)` pair. -/
def mkPart (p : String × FileBlock) : AggregatedFilePart :=
  ⟨p.1, p.2.DataPos, p.2.VolumeDataSize, p.2.UnpackedSize, p.2.Stored, p.2.Encrypted⟩

/-- First non-zero value of a list, `0` if none. -/
def firstNonzero : List Int → Int
  | [] => 0
  | u :: us => if u ≠ 0 then u else firstNonzero us

/-- The group of name `nm` built directly from its pairs. -/
def aggGroup (nm : List Nat) (ps : List (String × FileBlock)) : AggregatedFile :=
  ps.foldl (fun ag p => aggUpdate p.1 p.2 ag) (aggInit nm)

/-- Canonical form of the aggregation: one group per distinct name in
first-seen order, each built from exactly its pairs in order. -/
def canonAgg (ps : List (String × FileBlock)) : List AggregatedFile :=
  (firstSeen (ps.map (fun p => p.2.Name))).map
    (fun nm => aggGroup nm (ps.filter (fun p => p.2.Name = nm)))

theorem aggUpdate_name (path : String) (fb : FileBlock) (ag : AggregatedFile) :
    (aggUpdate path fb ag).Name = ag.Name := rfl

theorem aggGroup_name (nm : List Nat) : ∀ (ps : List (String × FileBlock)),
    (aggGroup nm ps).Name = nm := by
  have haux : ∀ (ps : List (String × FileBlock)) (ag : AggregatedFile),
      (ps.foldl (fun ag p => aggUpdate p.1 p.2 ag) ag).Name = ag.Name := by
    intro ps
    induction ps with
    | nil => intro ag; rfl
    | cons p rest ih => intro ag; rw [List.foldl_cons, ih]; rfl
  intro ps
  rw [aggGroup, haux]
  rfl

theorem aggGroup_append (nm : List Nat) (ps : List (String × FileBlock))
    (p : String × FileBlock) :
    aggGroup nm (ps ++ [p]) = aggUpdate p.1 p.2 (aggGroup nm ps) := by
  rw [aggGroup, aggGroup, List.foldl_append]
  rfl

/-- `aggInsert` on a list of groups with distinct names: update the unique
matching group in place, or append a fresh group. -/
theorem aggInsert_map (names : List (List Nat)) (F : List Nat → AggregatedFile)
    (path : String) (fb : FileBlock)
    (hF : ∀ nm ∈ names, (F nm).Name = nm) (hnd : names.Nodup) :
    aggInsert (names.map F) path fb =
      (if fb.Name ∈ names then
        names.map (fun nm => if nm = fb.Name then aggUpdate path fb (F nm) else F nm)
      else names.map F ++ [aggUpdate path fb (aggInit fb.Name)]) := by
  induction names with
  | nil => simp [aggInsert]
  | cons nm0 rest ih =>
    rw [List.map_cons, aggInsert]
    have hname : (F nm0).Name = nm0 := hF nm0 (by simp)
    have hnd0 : nm0 ∉ rest := (List.nodup_cons.mp hnd).1
    have hndr : rest.Nodup := (List.nodup_cons.mp hnd).2
    by_cases h0 : nm0 = fb.Name
    · rw [if_pos (by rw [hname, h0])]
      rw [if_pos (by simp [h0])]
      rw [List.map_cons, if_pos h0]
      congr 1
      rw [List.map_congr_left]
      intro nm hnm
      rw [if_neg (by rintro rfl; exact hnd0 (h0 ▸ hnm))]
    · rw [if_neg (by rw [hname]; exact h0)]
      rw [ih (fun nm hnm => hF nm (by simp [hnm])) hndr]
      by_cases hmem : fb.Name ∈ rest
      · rw [if_pos hmem, if_pos (by simp [hmem]), List.map_cons,
          if_neg h0]
      · rw [if_neg hmem,
          if_neg (by
            simp only [List.mem_cons, not_or]
            exact ⟨fun h => h0 h.symm, hmem⟩)]
        simp

/-- Inserting one pair into the canonical aggregation extends it
canonically. -/
theorem canonAgg_snoc (done : List (String × FileBlock)) (p : String × FileBlock) :
    canonAgg (done ++ [p]) = aggInsert (canonAgg done) p.1 p.2 := by
  rw [canonAgg, canonAgg, List.map_append, List.map_singleton, firstSeen_append,
    aggInsert_map _ _ _ _ (fun nm _ => aggGroup_name nm _) (nodup_firstSeen _)]
  have hfilter : ∀ nm, (done ++ [p]).filter (fun q => q.2.Name = nm) =
      done.filter (fun q => q.2.Name = nm) ++
        (if p.2.Name = nm then [p] else []) := by
    intro nm
    rw [List.filter_append]
    congr 1
    by_cases hp : p.2.Name = nm
    · simp [hp]
    · simp [hp]
  by_cases hmem : p.2.Name ∈ firstSeen (done.map (fun q => q.2.Name))
  · rw [if_pos hmem, if_pos hmem]
    rw [List.map_congr_left]
    intro nm hnm
    rw [hfilter nm]
    by_cases heq : nm = p.2.Name
    · rw [if_pos heq, if_pos heq.symm, aggGroup_append]
    · rw [if_neg heq, if_neg (fun h => heq h.symm), List.append_nil]
  · rw [if_neg hmem, if_neg hmem, List.map_append, List.map_singleton]
    congr 1
    · rw [List.map_congr_left]
      intro nm hnm
      rw [hfilter nm, if_neg (by rintro rfl; exact hmem hnm), List.append_nil]
    · rw [hfilter p.2.Name, if_pos rfl]
      have hempty : done.filter (fun q => q.2.Name = p.2.Name) = [] := by
        rw [List.filter_eq_nil_iff]
        intro q hq hqe
        exact hmem ((mem_firstSeen _ _).mpr
          (List.mem_map.mpr ⟨q, hq, by simpa using hqe⟩))
      rw [hempty, List.nil_append]
      rfl

/-- The aggregation loop computes the canonical aggregation. -/
theorem aggLoop_canon : ∀ (rest done : List (String × FileBlock)),
    aggLoop rest (canonAgg done) = canonAgg (done ++ rest) := by
  intro rest
  induction rest with
  | nil => intro done; rw [aggLoop, List.append_nil]
  | cons p rest ih =>
    intro done
    rw [aggLoop, ← canonAgg_snoc, ih, List.append_assoc]
    rfl

/-- `AggregateFiles` equals the canonical per-name aggregation. -/
theorem aggregateFiles_eq_canon (vs : List VolumeIndex) :
    aggregateFiles vs = canonAgg (aggPairs vs) := by
  rw [aggregateFiles]
  have h := aggLoop_canon (aggPairs vs) []
  rw [List.nil_append] at h
  exact h

/-- First positive value of a list, `0` if none: the code only takes
`fb.UnpackedSize` when it is `> 0`. -/
def firstPos : List Int → Int
  | [] => 0
  | u :: us => if u > 0 then u else firstPos us

theorem firstPos_eq_firstNonzero (l : List Int) (h : ∀ x ∈ l, 0 ≤ x) :
    firstPos l = firstNonzero l := by
  induction l with
  | nil => rfl
  | cons u us ih =>
    have hu : 0 ≤ u := h u (by simp)
    rw [firstPos, firstNonzero]
    by_cases hpos : u > 0
    · rw [if_pos hpos, if_pos (by omega)]
    · rw [if_neg hpos, if_neg (by omega),
        ih (fun x hx => h x (by simp [hx]))]

theorem aggFold_Parts : ∀ (ps : List (String × FileBlock)) (ag : AggregatedFile),
    (ps.foldl (fun ag p => aggUpdate p.1 p.2 ag) ag).Parts =
      ag.Parts ++ ps.map mkPart := by
  intro ps
  induction ps with
  | nil => intro ag; simp
  | cons p rest ih =>
    intro ag
    rw [List.foldl_cons, ih]
    simp [aggUpdate, mkPart]

theorem aggFold_TPS : ∀ (ps : List (String × FileBlock)) (ag : AggregatedFile),
    (ps.foldl (fun ag p => aggUpdate p.1 p.2 ag) ag).TotalPackedSize =
      (ps.map (fun p => p.2.VolumeDataSize)).foldl i64add ag.TotalPackedSize := by
  intro ps
  induction ps with
  | nil => intro ag; rfl
  | cons p rest ih =>
    intro ag
    rw [List.foldl_cons, ih, List.map_cons, List.foldl_cons]
    rfl

theorem aggFold_TUS : ∀ (ps : List (String × FileBlock)) (ag : AggregatedFile),
    (ps.foldl (fun ag p => aggUpdate p.1 p.2 ag) ag).TotalUnpackedSize =
      (if ag.TotalUnpackedSize = 0 then
        firstPos (ps.map (fun p => p.2.UnpackedSize))
       else ag.TotalUnpackedSize) := by
  intro ps
  induction ps with
  | nil => intro ag; by_cases h : ag.TotalUnpackedSize = 0 <;> simp [firstPos, h]
  | cons p rest ih =>
    intro ag
    rw [List.foldl_cons, ih, List.map_cons, firstPos]
    by_cases h0 : ag.TotalUnpackedSize = 0
    · by_cases hu : p.2.UnpackedSize > 0
      · have hup : (aggUpdate p.1 p.2 ag).TotalUnpackedSize = p.2.UnpackedSize := by
          simp [aggUpdate, h0, hu]
        rw [hup, if_neg (by omega), if_pos h0, if_pos hu]
      · have hup : (aggUpdate p.1 p.2 ag).TotalUnpackedSize = ag.TotalUnpackedSize := by
          simp [aggUpdate, hu]
        rw [hup, if_pos h0, if_pos h0, if_neg hu]
    · have hup : (aggUpdate p.1 p.2 ag).TotalUnpackedSize = ag.TotalUnpackedSize := by
        simp [aggUpdate, h0]
      rw [hup, if_neg h0, if_neg h0]

theorem aggFold_enc : ∀ (ps : List (String × FileBlock)) (ag : AggregatedFile),
    (ps.foldl (fun ag p => aggUpdate p.1 p.2 ag) ag).AnyEncrypted =
      (ag.AnyEncrypted || (ps.map (fun p => p.2.Encrypted)).any id) := by
  intro ps
  induction ps with
  | nil => intro ag; simp
  | cons p rest ih =>
    intro ag
    rw [List.foldl_cons, ih]
    simp [aggUpdate, Bool.or_assoc]

theorem aggFold_stored : ∀ (ps : List (String × FileBlock)) (ag : AggregatedFile),
    (ps.foldl (fun ag p => aggUpdate p.1 p.2 ag) ag).AllStored =
      (ag.AllStored && (ps.map (fun p => p.2.Stored)).all id) := by
  intro ps
  induction ps with
  | nil => intro ag; simp
  | cons p rest ih =>
    intro ag
    rw [List.foldl_cons, ih]
    simp [aggUpdate, Bool.and_assoc]

/-- Full field-by-field description of one aggregated group. -/
theorem aggGroup_eq (nm : List Nat) (ps : List (String × FileBlock)) :
    aggGroup nm ps =
      ⟨nm, (ps.map (fun p => p.2.VolumeDataSize)).foldl i64add 0,
       firstPos (ps.map (fun p => p.2.UnpackedSize)),
       ps.map mkPart,
       (ps.map (fun p => p.2.Encrypted)).any id,
       (ps.map (fun p => p.2.Stored)).all id⟩ := by
  have hN := aggGroup_name nm ps
  have hP := aggFold_Parts ps (aggInit nm)
  have hT := aggFold_TPS ps (aggInit nm)
  have hU := aggFold_TUS ps (aggInit nm)
  have hE := aggFold_enc ps (aggInit nm)
  have hS := aggFold_stored ps (aggInit nm)
  rw [aggGroup] at hN ⊢
  show (⟨(ps.foldl (fun ag p => aggUpdate p.1 p.2 ag) (aggInit nm)).Name,
         (ps.foldl (fun ag p => aggUpdate p.1 p.2 ag) (aggInit nm)).TotalPackedSize,
         (ps.foldl (fun ag p => aggUpdate p.1 p.2 ag) (aggInit nm)).TotalUnpackedSize,
         (ps.foldl (fun ag p => aggUpdate p.1 p.2 ag) (aggInit nm)).Parts,
         (ps.foldl (fun ag p => aggUpdate p.1 p.2 ag) (aggInit nm)).AnyEncrypted,
         (ps.foldl (fun ag p => aggUpdate p.1 p.2 ag) (aggInit nm)).AllStored⟩ :
        AggregatedFile) = _
  rw [hN, hP, hT, hU, hE, hS]
  simp [aggInit]

theorem intSum_nonneg : ∀ (l : List Int), (∀ x ∈ l, 0 ≤ x) → 0 ≤ l.sum := by
  intro l
  induction l with
  | nil => intro _; simp
  | cons x rest ih =>
    intro h
    rw [List.sum_cons]
    have hr := ih (fun y hy => h y (by simp [hy]))
    have hx := h x (by simp)
    linarith

theorem wrap64_eq_self (n : Int) (h1 : -(2 ^ 63) ≤ n) (h2 : n < 2 ^ 63) :
    wrap64 n = n := by
  have h63 : (2 : Int) ^ 63 = 9223372036854775808 := by norm_num
  have h64 : (2 : Int) ^ 64 = 18446744073709551616 := by norm_num
  rw [h63] at h1 h2
  rw [wrap64, h63, h64, Int.emod_eq_of_lt (by omega) (by omega)]
  omega

theorem foldl_i64add_eq_sum : ∀ (l : List Int) (a : Int), 0 ≤ a →
    (∀ x ∈ l, 0 ≤ x) → a + l.sum < 2 ^ 63 →
    l.foldl i64add a = a + l.sum := by
  intro l
  induction l with
  | nil => intro a _ _ _; simp
  | cons x rest ih =>
    intro a ha hall hbound
    have hx : 0 ≤ x := hall x (by simp)
    have hrest : 0 ≤ rest.sum :=
      intSum_nonneg rest (fun y hy => hall y (by simp [hy]))
    rw [List.sum_cons] at hbound
    have hp : (0 : Int) < 2 ^ 63 := by positivity
    have hax : i64add a x = a + x := by
      rw [i64add, wrap64_eq_self _ (by linarith) (by linarith)]
    rw [List.foldl_cons, hax,
      ih (a + x) (by linarith) (fun y hy => hall y (by simp [hy])) (by linarith),
      List.sum_cons]
    ring

theorem sublist_sum_le (l₁ l₂ : List Int) (h : l₁.Sublist l₂)
    (hn : ∀ x ∈ l₂, 0 ≤ x) : l₁.sum ≤ l₂.sum := by
  induction h with
  | slnil => simp
  | cons x h ih =>
    rw [List.sum_cons]
    have h1 := ih (fun y hy => hn y (by simp [hy]))
    have hx := hn x (by simp)
    linarith
  | cons₂ x h ih =>
    rw [List.sum_cons, List.sum_cons]
    have h1 := ih (fun y hy => hn y (by simp [hy]))
    exact by linarith

/-- Second components of the aggregation pairs form a sublist of all blocks. -/
theorem aggPairs_map_sublist : ∀ (vs : List VolumeIndex),
    ((aggPairs vs).map (fun p => p.2)).Sublist (allBlocks vs) := by
  intro vs
  induction vs with
  | nil => simp [aggPairs, allBlocks]
  | cons v rest ih =>
    have h1 : ((v.FileBlocks.filter (fun fb => fb.Name ≠ [])).map
        (fun fb => (v.Path, fb))).map (fun p => p.2) =
        v.FileBlocks.filter (fun fb => fb.Name ≠ []) := by
      rw [List.map_map]
      simp
    show ((aggPairs (v :: rest)).map (fun p => p.2)).Sublist (allBlocks (v :: rest))
    rw [aggPairs, allBlocks, List.map_cons, List.map_cons, List.flatten_cons,
      List.flatten_cons, List.map_append, h1]
    exact List.Sublist.append (List.filter_sublist _) ih

theorem mem_aggPairs_block {vs : List VolumeIndex} {p : String × FileBlock}
    (h : p ∈ aggPairs vs) : p.2 ∈ allBlocks vs :=
  (aggPairs_map_sublist vs).subset (List.mem_map_of_mem _ h)

/-- The byte values of the name `"multi.bin"`. -/
def multiBinName : List Nat := [109, 117, 108, 116, 105, 46, 98, 105, 110]

/-- Scenario C, first volume: first part of `"multi.bin"`, volume-local data
size 5, unpacked size 10, stored, not encrypted. -/
def scenarioCVol1 : VolumeIndex :=
  ⟨"multi.part1.rar", .rar3, 50,
   [⟨multiBinName, 0, 50, 50, 8, 5, true, 10, true, false⟩]⟩

/-- Scenario C, second volume: second part of `"multi.bin"`, volume-local data
size 3, unpacked size 0, stored, not encrypted. -/
def scenarioCVol2 : VolumeIndex :=
  ⟨"multi.part2.rar", .rar3, 50,
   [⟨multiBinName, 0, 50, 50, 3, 3, false, 0, true, false⟩]⟩

/-- C6: `AggregateFiles` groups the file blocks with non-empty names by name,
emitting one `AggregatedFile` per distinct name in first-seen order; per name,
`TotalPackedSize` is the sum of the parts' volume-local data sizes,
`TotalUnpackedSize` is the first non-zero unpacked size among the parts in
volume order, `AnyEncrypted` is the OR of the parts' encrypted flags and
`AllStored` is the AND of their stored flags starting from true (stated under
non-negative sizes and a no-overflow bound, matching Go `int64` arithmetic);
in particular, two volumes each holding a part of `"multi.bin"` with
volume-local data sizes 5 and 3 and unpacked sizes 10 and 0 aggregate to one
`AggregatedFile` with `TotalPackedSize` 8, `TotalUnpackedSize` 10 and exactly
2 parts. -/
theorem aggregate_groups_by_name :
    (∀ (vs : List VolumeIndex),
      (∀ fb ∈ allBlocks vs, 0 ≤ fb.VolumeDataSize) →
      (∀ fb ∈ allBlocks vs, 0 ≤ fb.UnpackedSize) →
      ((allBlocks vs).map (fun fb => fb.VolumeDataSize)).sum < 2 ^ 63 →
      aggregateFiles vs =
        (firstSeen ((aggPairs vs).map (fun p => p.2.Name))).map (fun nm =>
          (⟨nm,
            (((aggPairs vs).filter (fun p => p.2.Name = nm)).map
              (fun p => p.2.VolumeDataSize)).sum,
            firstNonzero (((aggPairs vs).filter (fun p => p.2.Name = nm)).map
              (fun p => p.2.UnpackedSize)),
            ((aggPairs vs).filter (fun p => p.2.Name = nm)).map mkPart,
            (((aggPairs vs).filter (fun p => p.2.Name = nm)).map
              (fun p => p.2.Encrypted)).any id,
            (((aggPairs vs).filter (fun p => p.2.Name = nm)).map
              (fun p => p.2.Stored)).all id⟩ : AggregatedFile))) ∧
    aggregateFiles [scenarioCVol1, scenarioCVol2] =
      [⟨multiBinName, 8, 10,
        [⟨"multi.part1.rar", 50, 5, 10, true, false⟩,
         ⟨"multi.part2.rar", 50, 3, 0, true, false⟩], false, true⟩] := by
  constructor
  · intro vs hvds hups hbound
    rw [aggregateFiles_eq_canon, canonAgg, List.map_congr_left]
    intro nm hnm
    rw [aggGroup_eq]
    have hsubP : (((aggPairs vs).filter (fun p => p.2.Name = nm)).map
        (fun p => p.2)).Sublist (allBlocks vs) :=
      ((List.filter_sublist _).map _).trans (aggPairs_map_sublist vs)
    have hmem : ∀ q ∈ (aggPairs vs).filter (fun p => p.2.Name = nm),
        q.2 ∈ allBlocks vs := by
      intro q hq
      exact hsubP.subset (List.mem_map_of_mem _ hq)
    congr 1
    · have hnn : ∀ x ∈ ((aggPairs vs).filter (fun p => p.2.Name = nm)).map
          (fun p => p.2.VolumeDataSize), 0 ≤ x := by
        intro x hx
        rcases List.mem_map.mp hx with ⟨q, hq, rfl⟩
        exact hvds q.2 (hmem q hq)
      have hsub2 : (((aggPairs vs).filter (fun p => p.2.Name = nm)).map
          (fun p => p.2.VolumeDataSize)).Sublist
          ((allBlocks vs).map (fun fb => fb.VolumeDataSize)) := by
        have h2 := hsubP.map (fun fb => fb.VolumeDataSize)
        rw [List.map_map] at h2
        exact h2
      have hle := sublist_sum_le _ _ hsub2 (by
        intro x hx
        rcases List.mem_map.mp hx with ⟨fb, hfb, rfl⟩
        exact hvds fb hfb)
      rw [foldl_i64add_eq_sum _ 0 le_rfl hnn
        (by rw [zero_add]; exact lt_of_le_of_lt hle hbound), zero_add]
    · apply firstPos_eq_firstNonzero
      intro x hx
      rcases List.mem_map.mp hx with ⟨q, hq, rfl⟩
      exact hups q.2 (hmem q hq)
  · rfl

/-- Witness for C6 at the Scenario C volumes: the side conditions hold there
and the aggregation equals the grouped form. -/
theorem aggregate_groups_by_name_witness :
    ((∀ fb ∈ allBlocks [scenarioCVol1, scenarioCVol2], 0 ≤ fb.VolumeDataSize) ∧
     (∀ fb ∈ allBlocks [scenarioCVol1, scenarioCVol2], 0 ≤ fb.UnpackedSize) ∧
     ((allBlocks [scenarioCVol1, scenarioCVol2]).map
        (fun fb => fb.VolumeDataSize)).sum < 2 ^ 63) ∧
    aggregateFiles [scenarioCVol1, scenarioCVol2] =
      (firstSeen ((aggPairs [scenarioCVol1, scenarioCVol2]).map
          (fun p => p.2.Name))).map (fun nm =>
        (⟨nm,
          (((aggPairs [scenarioCVol1, scenarioCVol2]).filter
              (fun p => p.2.Name = nm)).map (fun p => p.2.VolumeDataSize)).sum,
          firstNonzero (((aggPairs [scenarioCVol1, scenarioCVol2]).filter
              (fun p => p.2.Name = nm)).map (fun p => p.2.UnpackedSize)),
          ((aggPairs [scenarioCVol1, scenarioCVol2]).filter
              (fun p => p.2.Name = nm)).map mkPart,
          (((aggPairs [scenarioCVol1, scenarioCVol2]).filter
              (fun p => p.2.Name = nm)).map (fun p => p.2.Encrypted)).any id,
          (((aggPairs [scenarioCVol1, scenarioCVol2]).filter
              (fun p => p.2.Name = nm)).map (fun p => p.2.Stored)).all id⟩ :
          AggregatedFile)) :=
  ⟨⟨by decide, by decide, by decide⟩,
   aggregate_groups_by_name.1 [scenarioCVol1, scenarioCVol2]
     (by decide) (by decide) (by decide)⟩

end Rarlist

